import Mathlib

/-!
Verification of the gimbal MCP filesystem server core
(`src/filesystem_server.py`) against its specification.

The embedding models:
  * filesystem paths as lists of name segments of an absolute path
    (`[]` is the filesystem root `/`);
  * the host filesystem as a finite association list from (physical)
    paths to nodes (regular file with text content, directory, or
    symbolic link with an absolute target);
  * `pathlib.Path.resolve()` as fuel-bounded, component-wise symlink
    following with `.`/`..` collapsing (non-strict: components that do
    not exist are kept verbatim); fuel exhaustion — CPython's cutoff
    for symlink cycles — is modelled as resolution failure;
  * each server tool as a pure function from a configuration and a
    filesystem to a result, the new filesystem, the list of I/O events
    it performed (reads/mutations of file data or directory structure;
    pure existence/kind probes are not recorded as events, which only
    strengthens any negative finding about unvalidated I/O), and the
    list of paths it successfully passed through `validate_path`.

Python string operations used by the server (`split`, `strip`,
`replace`, `lower`, `isalnum`, `startswith`, slicing, `len`) are
re-implemented structurally over `List Char` so that every definition
evaluates by kernel reduction; `isalnum`/`lower` are modelled on ASCII
(the concrete inputs of this development are ASCII).
-/

/-- Python whitespace characters stripped by `str.strip()` (ASCII part). -/
def isPyWs (c : Char) : Bool :=
  c = ' ' ∨ c = '\t' ∨ c = '\n' ∨ c = '\r' ∨ c = '\x0b' ∨ c = '\x0c'

/-- `str.strip()` on a character list: drop leading and trailing whitespace. -/
def pyStrip (l : List Char) : List Char :=
  ((l.dropWhile isPyWs).reverse.dropWhile isPyWs).reverse

/-- `str.split(sep)` for a single-character separator; `"".split(c) = [""]`. -/
def splitChar (sep : Char) : List Char → List (List Char)
  | [] => [[]]
  | c :: cs =>
    let rest := splitChar sep cs
    if c = sep then [] :: rest
    else
      match rest with
      | r :: rs => (c :: r) :: rs
      | [] => [[c]]

/-- ASCII `str.lower()` on one character. -/
def toLowerChar (c : Char) : Char :=
  if 'A' ≤ c ∧ c ≤ 'Z' then Char.ofNat (c.toNat + 32) else c

/-- ASCII model of Python `str.isalnum()` on one character. -/
def pyIsAlnum (c : Char) : Bool :=
  c.isAlpha ∨ c.isDigit

/-- Number of bytes in the UTF-8 encoding of one character. -/
def charUtf8Size (c : Char) : Nat :=
  if c.toNat < 128 then 1
  else if c.toNat < 2048 then 2
  else if c.toNat < 65536 then 3
  else 4

/-- Byte length of a string's UTF-8 encoding (`os.stat().st_size` of a text file). -/
def utf8Len (s : String) : Nat :=
  s.toList.foldl (fun n c => n + charUtf8Size c) 0

/-- Code-point lexicographic `≤` on character lists (Python `str` comparison). -/
def charListLe : List Char → List Char → Bool
  | [], _ => true
  | _ :: _, [] => false
  | a :: as, b :: bs => if a < b then true else if b < a then false else charListLe as bs

/-- Code-point lexicographic `≤` on strings. -/
def strLe (a b : String) : Bool :=
  charListLe a.toList b.toList

/-- `sep.join(l)` (Python `str.join`). -/
def joinSep (sep : String) : List String → String
  | [] => ""
  | [s] => s
  | s :: rest => s ++ sep ++ joinSep sep rest

/-- `str(Path)` rendering of an absolute segment path. -/
def pathToString (p : List String) : String :=
  "/" ++ joinSep "/" p

/-- A plain path segment: a real name, not `""`, `"."` or `".."`. -/
def plainSeg (s : String) : Bool :=
  s ≠ "" ∧ s ≠ "." ∧ s ≠ ".."

/-- A filesystem node: regular file with text content, directory, or
symbolic link with an absolute target path. -/
inductive Node where
  | file (content : String)
  | dir
  | symlink (target : List String)
  deriving DecidableEq, Repr, Inhabited

/-- The host filesystem: a finite map (as an association list, first
match wins) from physical absolute paths to nodes. -/
structure Fs where
  nodes : List (List String × Node)
  deriving DecidableEq, Repr

/-- First-match lookup in the node list. -/
def lookupNodes : List (List String × Node) → List String → Option Node
  | [], _ => none
  | (k, n) :: rest, p => if k = p then some n else lookupNodes rest p

/-- Node stored at a path, if any. -/
def lookupFs (fs : Fs) (p : List String) : Option Node :=
  lookupNodes fs.nodes p

/-- Node at a path; the filesystem root `/` always exists as a directory. -/
def nodeAt (fs : Fs) (p : List String) : Option Node :=
  if p = [] then some Node.dir else lookupFs fs p

/-- Insert or overwrite the node at a path. -/
def setNode (fs : Fs) (p : List String) (n : Node) : Fs :=
  ⟨(p, n) :: fs.nodes.filter (fun kv => kv.1 ≠ p)⟩

/-- Remove the node at a path (`os.unlink`). -/
def removeNode (fs : Fs) (p : List String) : Fs :=
  ⟨fs.nodes.filter (fun kv => kv.1 ≠ p)⟩

/-- The symlink target at a path, when the path holds a symlink. -/
def symlinkAt (fs : Fs) (p : List String) : Option (List String) :=
  match nodeAt fs p with
  | some (Node.symlink t) => some t
  | _ => none

/-- Whether a path holds a directory (the root `/` always does). -/
def dirAt (fs : Fs) (p : List String) : Bool :=
  nodeAt fs p = some Node.dir

/-- Resolution budget: bounds the total number of processed components
and followed symlinks, modelling CPython's cutoff for symlink cycles. -/
def resolveFuel : Nat := 4096

/-- Component-wise physical path resolution (`Path.resolve()`, non-strict):
`.`/empty segments are skipped, `..` drops the last resolved component,
and a component that is a symlink restarts resolution at its absolute
target. Components that do not exist are kept verbatim. Returns `none`
when the budget is exhausted (symlink cycle). -/
def resolveSegs (fs : Fs) : Nat → List String → List String → Option (List String)
  | _, acc, [] => some acc
  | 0, _, _ :: _ => none
  | fuel + 1, acc, seg :: rest =>
    if seg = "" ∨ seg = "." then resolveSegs fs fuel acc rest
    else if seg = ".." then resolveSegs fs fuel acc.dropLast rest
    else
      match symlinkAt fs (acc ++ [seg]) with
      | some target => resolveSegs fs fuel [] (target ++ rest)
      | none => resolveSegs fs fuel (acc ++ [seg]) rest

/-- A fully resolved path: every segment is a plain name and no nonempty
prefix of it is a symlink. -/
def physicalB (fs : Fs) (q : List String) : Bool :=
  q.all plainSeg && q.inits.all (fun pre => pre.isEmpty || symlinkAt fs pre = none)

/-- Server configuration: the allow-list and projects root set at startup
(`ALLOWED_DIRECTORIES`, `PROJECTS_DIR`), plus the process home directory
and working directory used by `expanduser`/`resolve`. All four are
absolute physical segment paths. -/
structure Cfg where
  allowedDirectories : List (List String)
  projectsDir : Option (List String)
  home : List String
  cwd : List String

/-- `Path(path_str).expanduser().resolve()`: split on `/`, expand a
leading `~`, make the path absolute against the working directory, then
resolve symlinks and relative components. -/
def expandResolve (cfg : Cfg) (fs : Fs) (s : String) : Option (List String) :=
  let parts := (splitChar '/' s.toList).map List.asString
  let segs : List String :=
    match parts with
    | "~" :: rest => cfg.home ++ rest
    | "" :: rest => rest
    | rest => cfg.cwd ++ rest
  resolveSegs fs resolveFuel [] segs

/-- Error kinds raised by the server (spec §7 taxonomy). -/
inductive Err where
  | pathNotAllowed (p : List String)
  | notFound (p : String)
  | wrongType (p : String)
  | alreadyExists (slug : String)
  | invalidInput
  | notConfigured
  | hostFailed
  deriving DecidableEq, Repr

/-- `is_path_allowed`: resolve the path, then test whether some allowed
directory is a segment-wise prefix of the result (`Path.relative_to`).
`none` models a resolution error propagating out. -/
def is_path_allowed (cfg : Cfg) (fs : Fs) (p : List String) : Option Bool :=
  match resolveSegs fs resolveFuel [] p with
  | none => none
  | some resolved =>
    some (cfg.allowedDirectories.any (fun allowed => allowed.isPrefixOf resolved))

/-- `validate_path`: expand and resolve the candidate string, raise
`PathNotAllowed` unless `is_path_allowed` accepts it, and return the
resolved path. -/
def validate_path (cfg : Cfg) (fs : Fs) (pathStr : String) : Except Err (List String) :=
  match expandResolve cfg fs pathStr with
  | none => Except.error Err.hostFailed
  | some path =>
    match is_path_allowed cfg fs path with
    | some true => Except.ok path
    | some false => Except.error (Err.pathNotAllowed path)
    | none => Except.error Err.hostFailed

/-- One filesystem I/O action performed by an operation, at a resolved path. -/
inductive Event where
  | read (p : List String)
  | write (p : List String)
  deriving DecidableEq, Repr

/-- Outcome of one tool invocation: the returned string or raised error. -/
inductive OpResult where
  | ok (msg : String)
  | err (e : Err)
  deriving DecidableEq, Repr

/-- Whether the invocation returned normally. -/
def OpResult.isOk : OpResult → Bool
  | OpResult.ok _ => true
  | OpResult.err _ => false

/-- Instrumented result of one tool invocation: outcome, resulting
filesystem, I/O events performed, and paths successfully validated. -/
structure OpOut where
  result : OpResult
  fs : Fs
  events : List Event
  validated : List (List String)
  deriving DecidableEq, Repr

/-- `Path.exists()`: resolve (following symlinks; `False` on a broken
link or resolution error) and test presence. -/
def fsExists (fs : Fs) (p : List String) : Bool :=
  match resolveSegs fs resolveFuel [] p with
  | none => false
  | some q => (nodeAt fs q).isSome

/-- `Path.is_file()`: resolve and test for a regular file. -/
def fsIsFile (fs : Fs) (p : List String) : Bool :=
  match resolveSegs fs resolveFuel [] p with
  | none => false
  | some q =>
    match nodeAt fs q with
    | some (Node.file _) => true
    | _ => false

/-- `Path.is_dir()`: resolve and test for a directory. -/
def fsIsDir (fs : Fs) (p : List String) : Bool :=
  match resolveSegs fs resolveFuel [] p with
  | none => false
  | some q => dirAt fs q

/-- Text content reachable at a path after following symlinks, if the
path resolves to a regular file. -/
def contentAt (fs : Fs) (p : List String) : Option String :=
  match resolveSegs fs resolveFuel [] p with
  | none => none
  | some q =>
    match nodeAt fs q with
    | some (Node.file c) => some c
    | _ => none

/-- `os.stat().st_size`: byte size of the regular file reached after
following symlinks; `none` when the stat call would raise (broken
symlink, missing target, resolution error). -/
def statSize (fs : Fs) (p : List String) : Option Nat :=
  (contentAt fs p).map utf8Len

/-- Universal-newline translation performed by `Path.read_text()` when
no `newline` argument is given (the default `open` text mode): each
`"\r\n"` pair and each lone `'\r'` in the stored text become `'\n'`. -/
def univNewlines : List Char → List Char
  | [] => []
  | c :: [] => [if c = '\r' then '\n' else c]
  | c :: c2 :: rest =>
    if c = '\r' then
      if c2 = '\n' then '\n' :: univNewlines rest
      else '\n' :: univNewlines (c2 :: rest)
    else c :: univNewlines (c2 :: rest)

/-- `univNewlines` on a `String`. -/
def univNewlinesStr (s : String) : String :=
  String.mk (univNewlines s.data)

/-- `Path.read_text()`: follow symlinks and read the file; returns the
content after universal-newline translation, and the resolved path
actually read. Failures (missing target, directory, unresolvable path)
are host errors; the callers below only reach this after their own
existence checks. -/
def readText (fs : Fs) (p : List String) : Except Err (String × List String) :=
  match resolveSegs fs resolveFuel [] p with
  | none => Except.error Err.hostFailed
  | some q =>
    match nodeAt fs q with
    | some (Node.file c) => Except.ok (univNewlinesStr c, q)
    | _ => Except.error Err.hostFailed

/-- `Path.write_text(content)`: create or overwrite the regular file at
`p` (which callers pass already resolved); fails on a directory target,
a symlink target (unreachable on resolved paths; modelled coarsely), or
a missing parent directory. -/
def writeText (fs : Fs) (p : List String) (content : String) : Except Err (Fs × Event) :=
  match nodeAt fs p with
  | some Node.dir => Except.error Err.hostFailed
  | some (Node.symlink _) => Except.error Err.hostFailed
  | _ =>
    if dirAt fs p.dropLast then Except.ok (setNode fs p (Node.file content), Event.write p)
    else Except.error Err.hostFailed

/-- `Path.mkdir(parents=True, exist_ok=True)`, walking `acc ++ rest`
top-down from `acc`: reuse existing directories, create missing ones
(each creation is a write event), fail if a component exists as a
non-directory. -/
def mkdirParentsAux (fs : Fs) (acc : List String) : List String → Except Err (Fs × List Event)
  | [] => Except.ok (fs, [])
  | seg :: rest =>
    let cur := acc ++ [seg]
    match nodeAt fs cur with
    | some Node.dir => mkdirParentsAux fs cur rest
    | some _ => Except.error Err.hostFailed
    | none =>
      match mkdirParentsAux (setNode fs cur Node.dir) cur rest with
      | Except.ok (fs2, evs) => Except.ok (fs2, Event.write cur :: evs)
      | Except.error e => Except.error e

/-- `p.mkdir(parents=True, exist_ok=True)` from the root. -/
def mkdirParents (fs : Fs) (p : List String) : Except Err (Fs × List Event) :=
  mkdirParentsAux fs [] p

/-- `p.mkdir()` (no `parents`, no `exist_ok`): the parent must be a
directory and `p` must not exist. -/
def mkdirSimple (fs : Fs) (p : List String) : Except Err (Fs × Event) :=
  if (nodeAt fs p).isSome then Except.error Err.hostFailed
  else if dirAt fs p.dropLast then Except.ok (setNode fs p Node.dir, Event.write p)
  else Except.error Err.hostFailed

/-- `os.rename(src, dst)`: move the node at `src` together with its
subtree to `dst`. Overwriting an existing directory destination and a
missing destination parent are host errors (modelled coarsely; the spec
leaves the missing-parent case host-defined). -/
def renameFs (fs : Fs) (src dst : List String) : Except Err Fs :=
  if nodeAt fs dst = some Node.dir then Except.error Err.hostFailed
  else if dirAt fs dst.dropLast then
    Except.ok ⟨fs.nodes.filterMap (fun kv =>
      if src.isPrefixOf kv.1 then some (dst ++ kv.1.drop src.length, kv.2)
      else if kv.1 = dst then none
      else some kv)⟩
  else Except.error Err.hostFailed

/-- Insert into a `≤`-sorted list of strings. -/
def insertSorted (s : String) : List String → List String
  | [] => [s]
  | x :: xs => if strLe s x then s :: x :: xs else x :: insertSorted s xs

/-- Sort strings by code-point order (Python `sorted` on names). -/
def sortStrings (l : List String) : List String :=
  l.foldr insertSorted []

/-- Names of entries stored directly under `p`, in storage order. -/
def rawChildNames (fs : Fs) (p : List String) : List String :=
  fs.nodes.filterMap (fun kv =>
    if kv.1.dropLast = p ∧ kv.1.length = p.length + 1 then kv.1.getLast? else none)

/-- `sorted(p.iterdir())`: the distinct names of the direct children of
`p`, sorted by name. -/
def childNames (fs : Fs) (p : List String) : List String :=
  sortStrings (rawChildNames fs p).dedup

/-- Whether `p` has a direct child entry named `n`. -/
def hasChild (fs : Fs) (p : List String) (n : String) : Bool :=
  (lookupFs fs (p ++ [n])).isSome

/-- Tool `read_file(path)`: validate, require an existing regular file,
return its text. -/
def read_file (cfg : Cfg) (fs : Fs) (path : String) : OpOut :=
  match validate_path cfg fs path with
  | Except.error e => ⟨OpResult.err e, fs, [], []⟩
  | Except.ok file_path =>
    if ¬ fsExists fs file_path then
      ⟨OpResult.err (Err.notFound path), fs, [], [file_path]⟩
    else if ¬ fsIsFile fs file_path then
      ⟨OpResult.err (Err.wrongType path), fs, [], [file_path]⟩
    else
      match readText fs file_path with
      | Except.ok (content, target) =>
        ⟨OpResult.ok content, fs, [Event.read target], [file_path]⟩
      | Except.error e => ⟨OpResult.err e, fs, [], [file_path]⟩

/-- Tool `write_file(path, content)`: validate, create missing parent
directories, create or overwrite the file, report the character count. -/
def write_file (cfg : Cfg) (fs : Fs) (path content : String) : OpOut :=
  match validate_path cfg fs path with
  | Except.error e => ⟨OpResult.err e, fs, [], []⟩
  | Except.ok file_path =>
    match mkdirParents fs file_path.dropLast with
    | Except.error e => ⟨OpResult.err e, fs, [], [file_path]⟩
    | Except.ok (fs1, evs) =>
      match writeText fs1 file_path content with
      | Except.error e => ⟨OpResult.err e, fs1, evs, [file_path]⟩
      | Except.ok (fs2, ev) =>
        ⟨OpResult.ok ("Successfully wrote " ++ toString content.length
            ++ " characters to " ++ path),
          fs2, evs ++ [ev], [file_path]⟩

/-- One line of a `list_directory` listing for the child named `n`:
`[DIR]` for a directory, `[FILE]` with the stat byte size otherwise;
a failing stat (broken symlink) raises. -/
def entryLine (fs : Fs) (child : List String) (n : String) : Except Err String :=
  if fsIsDir fs child then Except.ok ("[DIR]  " ++ n ++ "/")
  else
    match statSize fs child with
    | some size => Except.ok ("[FILE] " ++ n ++ " (" ++ toString size ++ " bytes)")
    | none => Except.error Err.hostFailed

/-- The listing lines for the named children of `dirPath`, stopping at
the first entry whose stat raises; also the read events performed. -/
def entryLines (fs : Fs) (dirPath : List String) : List String → Except Err (List String × List Event)
  | [] => Except.ok ([], [])
  | n :: ns =>
    match entryLine fs (dirPath ++ [n]) n with
    | Except.error e => Except.error e
    | Except.ok line =>
      match entryLines fs dirPath ns with
      | Except.error e => Except.error e
      | Except.ok (lines, evs) =>
        Except.ok (line :: lines, Event.read (dirPath ++ [n]) :: evs)

/-- Tool `list_directory(path)`: validate, require an existing
directory, list the sorted children with `[DIR]`/`[FILE]` tags, return
the `(empty directory)` sentinel for an empty directory. -/
def list_directory (cfg : Cfg) (fs : Fs) (path : String) : OpOut :=
  match validate_path cfg fs path with
  | Except.error e => ⟨OpResult.err e, fs, [], []⟩
  | Except.ok dir_path =>
    if ¬ fsExists fs dir_path then
      ⟨OpResult.err (Err.notFound path), fs, [], [dir_path]⟩
    else if ¬ fsIsDir fs dir_path then
      ⟨OpResult.err (Err.wrongType path), fs, [], [dir_path]⟩
    else
      match entryLines fs dir_path (childNames fs dir_path) with
      | Except.error e => ⟨OpResult.err e, fs, [Event.read dir_path], [dir_path]⟩
      | Except.ok (lines, evs) =>
        ⟨OpResult.ok (if lines = [] then "(empty directory)" else joinSep "\n" lines),
          fs, Event.read dir_path :: evs, [dir_path]⟩

/-- Tool `create_directory(path)`: validate, then
`mkdir(parents=True, exist_ok=True)`. -/
def create_directory (cfg : Cfg) (fs : Fs) (path : String) : OpOut :=
  match validate_path cfg fs path with
  | Except.error e => ⟨OpResult.err e, fs, [], []⟩
  | Except.ok dir_path =>
    match mkdirParents fs dir_path with
    | Except.error e => ⟨OpResult.err e, fs, [], [dir_path]⟩
    | Except.ok (fs1, evs) =>
      ⟨OpResult.ok ("Successfully created directory: " ++ path), fs1, evs, [dir_path]⟩

/-- Tool `delete_file(path)`: validate, require an existing regular
file (directories are rejected), unlink it. -/
def delete_file (cfg : Cfg) (fs : Fs) (path : String) : OpOut :=
  match validate_path cfg fs path with
  | Except.error e => ⟨OpResult.err e, fs, [], []⟩
  | Except.ok file_path =>
    if ¬ fsExists fs file_path then
      ⟨OpResult.err (Err.notFound path), fs, [], [file_path]⟩
    else if ¬ fsIsFile fs file_path then
      ⟨OpResult.err (Err.wrongType path), fs, [], [file_path]⟩
    else
      ⟨OpResult.ok ("Successfully deleted: " ++ path),
        removeNode fs file_path, [Event.write file_path], [file_path]⟩

/-- Tool `move_file(source, destination)`: validate both endpoints (in
that order), require the source to exist, rename. -/
def move_file (cfg : Cfg) (fs : Fs) (source destination : String) : OpOut :=
  match validate_path cfg fs source with
  | Except.error e => ⟨OpResult.err e, fs, [], []⟩
  | Except.ok src_path =>
    match validate_path cfg fs destination with
    | Except.error e => ⟨OpResult.err e, fs, [], [src_path]⟩
    | Except.ok dst_path =>
      if ¬ fsExists fs src_path then
        ⟨OpResult.err (Err.notFound source), fs, [], [src_path, dst_path]⟩
      else
        match renameFs fs src_path dst_path with
        | Except.error e => ⟨OpResult.err e, fs, [], [src_path, dst_path]⟩
        | Except.ok fs1 =>
          ⟨OpResult.ok ("Successfully moved " ++ source ++ " to " ++ destination),
            fs1, [Event.write src_path, Event.write dst_path], [src_path, dst_path]⟩

/-- First non-empty, non-`#` line of a metadata file, stripped and
truncated to 100 characters; `""` when no such line exists. -/
def firstDescLineAux : List (List Char) → List Char
  | [] => []
  | line :: rest =>
    if pyStrip line ≠ [] ∧ (pyStrip line).headD ' ' ≠ '#' then (pyStrip line).take 100
    else firstDescLineAux rest

/-- Project description extracted from `CLAUDE.md` content. -/
def firstDescLine (content : String) : String :=
  (firstDescLineAux (splitChar '\n' content.toList)).asString

/-- `True` when the name begins with a dot (hidden entry). -/
def startsWithDot (s : String) : Bool :=
  match s.toList with
  | c :: _ => c = '.'
  | [] => false

/-- One `list_projects` bullet for the project directory `entry` named
`n`: reads `CLAUDE.md` when present (following symlinks) and appends the
extracted description; the read event records the resolved path read. -/
def projectLine (fs : Fs) (entry : List String) (n : String) : Except Err (String × List Event) :=
  let claude_md := entry ++ ["CLAUDE.md"]
  if fsExists fs claude_md then
    match readText fs claude_md with
    | Except.error e => Except.error e
    | Except.ok (content, target) =>
      let description := firstDescLine content
      Except.ok ("• " ++ n ++ (if description ≠ "" then " - " ++ description else ""),
        [Event.read target])
  else Except.ok ("• " ++ n, [])

/-- The bullets for the sorted entries of the projects root, keeping
only non-dot-prefixed directories. -/
def projectLines (fs : Fs) (pd : List String) : List String → Except Err (List String × List Event)
  | [] => Except.ok ([], [])
  | n :: ns =>
    let entry := pd ++ [n]
    if fsIsDir fs entry && ¬ startsWithDot n then
      match projectLine fs entry n with
      | Except.error e => Except.error e
      | Except.ok (line, evs) =>
        match projectLines fs pd ns with
        | Except.error e => Except.error e
        | Except.ok (lines, evs2) => Except.ok (line :: lines, evs ++ evs2)
    else projectLines fs pd ns

/-- Tool `list_projects()`: explicit no-projects-directory result when
the projects root is unset or absent; otherwise one bullet per sorted,
non-dot-prefixed subdirectory with its `CLAUDE.md` description. Note the
projects root and the metadata files are accessed without any
`validate_path` call. -/
def list_projects (cfg : Cfg) (fs : Fs) : OpOut :=
  match cfg.projectsDir with
  | none => ⟨OpResult.ok "No projects directory found.", fs, [], []⟩
  | some pd =>
    if ¬ fsExists fs pd then ⟨OpResult.ok "No projects directory found.", fs, [], []⟩
    else
      match projectLines fs pd (childNames fs pd) with
      | Except.error e => ⟨OpResult.err e, fs, [Event.read pd], []⟩
      | Except.ok (lines, evs) =>
        if lines = [] then
          ⟨OpResult.ok "No projects yet. Use create_project to create one!",
            fs, Event.read pd :: evs, []⟩
        else
          ⟨OpResult.ok ("Projects:\n" ++ joinSep "\n" lines),
            fs, Event.read pd :: evs, []⟩

/-- Project-name sanitization: keep alphanumerics, `-`, `_` and spaces,
strip, replace spaces with hyphens, lowercase. -/
def sanitizeName (name : String) : String :=
  let kept := name.toList.filter (fun c => pyIsAlnum c || c = '-' || c = '_' || c = ' ')
  let stripped := pyStrip kept
  let hyphened := stripped.map (fun c => if c = ' ' then '-' else c)
  (hyphened.map toLowerChar).asString

/-- The generated per-project `CLAUDE.md` content. -/
def claudeMdContent (name description : String) : String :=
  "# " ++ name ++ "\n\n" ++ description
    ++ "\n\n## Structure\n\n- `downloads/` - Raw files fetched from the web\n- `scripts/` - Processing scripts\n- `data/` - Processed/final data\n\n## Notes\n\nAdd project-specific notes and context here.\n"

/-- Tool `create_project(name, description)`: sanitize the name, refuse
an empty slug or an existing project, create the project directory with
`downloads/`, `scripts/`, `data/` and the metadata file. All paths are
derived from the projects root; none passes through `validate_path`. -/
def create_project (cfg : Cfg) (fs : Fs) (name description : String) : OpOut :=
  match cfg.projectsDir with
  | none => ⟨OpResult.err Err.notConfigured, fs, [], []⟩
  | some pd =>
    let safe_name := sanitizeName name
    if safe_name = "" then ⟨OpResult.err Err.invalidInput, fs, [], []⟩
    else
      let project_path := pd ++ [safe_name]
      if fsExists fs project_path then
        ⟨OpResult.err (Err.alreadyExists safe_name), fs, [], []⟩
      else
        match mkdirParents fs project_path with
        | Except.error e => ⟨OpResult.err e, fs, [], []⟩
        | Except.ok (fs1, evs1) =>
          match mkdirSimple fs1 (project_path ++ ["downloads"]) with
          | Except.error e => ⟨OpResult.err e, fs1, evs1, []⟩
          | Except.ok (fs2, ev2) =>
            match mkdirSimple fs2 (project_path ++ ["scripts"]) with
            | Except.error e => ⟨OpResult.err e, fs2, evs1 ++ [ev2], []⟩
            | Except.ok (fs3, ev3) =>
              match mkdirSimple fs3 (project_path ++ ["data"]) with
              | Except.error e => ⟨OpResult.err e, fs3, evs1 ++ [ev2, ev3], []⟩
              | Except.ok (fs4, ev4) =>
                match writeText fs4 (project_path ++ ["CLAUDE.md"])
                    (claudeMdContent name description) with
                | Except.error e => ⟨OpResult.err e, fs4, evs1 ++ [ev2, ev3, ev4], []⟩
                | Except.ok (fs5, ev5) =>
                  ⟨OpResult.ok ("Created project '" ++ safe_name ++ "' at "
                      ++ pathToString project_path),
                    fs5, evs1 ++ [ev2, ev3, ev4, ev5], []⟩

/-- Existence check plus shell-out shared by both `open_in_finder`
branches; `openExit` gives the exit status of the host `open` command. -/
def finderGo (fs : Fs) (openExit : List String → Nat) (path : String)
    (target_path : List String) (validated : List (List String)) : OpOut :=
  if ¬ fsExists fs target_path then ⟨OpResult.err (Err.notFound path), fs, [], validated⟩
  else if openExit target_path ≠ 0 then ⟨OpResult.err Err.hostFailed, fs, [], validated⟩
  else ⟨OpResult.ok ("Opened " ++ pathToString target_path ++ " in Finder"), fs, [], validated⟩

/-- Tool `open_in_finder(path="")`: validate a non-empty path, else
default to the first allowed directory (configuration error when none
exist); require the target to exist; surface a non-zero exit of the
host `open` command as a failure. -/
def open_in_finder (cfg : Cfg) (fs : Fs) (openExit : List String → Nat)
    (path : String) : OpOut :=
  if path ≠ "" then
    match validate_path cfg fs path with
    | Except.error e => ⟨OpResult.err e, fs, [], []⟩
    | Except.ok target_path => finderGo fs openExit path target_path [target_path]
  else
    match cfg.allowedDirectories with
    | target_path :: _ => finderGo fs openExit path target_path []
    | [] => ⟨OpResult.err Err.notConfigured, fs, [], []⟩

/-- Decidable equality for `Except` results, used to evaluate concrete runs. -/
instance {ε α : Type} [DecidableEq ε] [DecidableEq α] : DecidableEq (Except ε α) := fun a b =>
  match a, b with
  | Except.ok x, Except.ok y =>
    if h : x = y then Decidable.isTrue (by rw [h]) else Decidable.isFalse (by simp [h])
  | Except.error x, Except.error y =>
    if h : x = y then Decidable.isTrue (by rw [h]) else Decidable.isFalse (by simp [h])
  | Except.ok _, Except.error _ => Decidable.isFalse (by simp)
  | Except.error _, Except.ok _ => Decidable.isFalse (by simp)

/-- Total rendering of one `list_directory` line (defined for children
whose stat succeeds; `getD` is irrelevant on the others). -/
def entryLineStr (fs : Fs) (dirPath : List String) (n : String) : String :=
  if fsIsDir fs (dirPath ++ [n]) then "[DIR]  " ++ n ++ "/"
  else "[FILE] " ++ n ++ " (" ++ toString ((statSize fs (dirPath ++ [n])).getD 0) ++ " bytes)"

/-- Total rendering of one `list_projects` bullet: `none` for entries
that are not non-dot directories, otherwise the bullet with the
description extracted from a readable `CLAUDE.md`. -/
def projectLineStr (fs : Fs) (pd : List String) (n : String) : Option String :=
  if fsIsDir fs (pd ++ [n]) && ¬ startsWithDot n then
    if fsExists fs ((pd ++ [n]) ++ ["CLAUDE.md"]) then
      some ("• " ++ n ++
        (if firstDescLine (univNewlinesStr
              ((contentAt fs ((pd ++ [n]) ++ ["CLAUDE.md"])).getD "")) ≠ "" then
          " - " ++ firstDescLine (univNewlinesStr
              ((contentAt fs ((pd ++ [n]) ++ ["CLAUDE.md"])).getD ""))
         else ""))
    else some ("• " ++ n)
  else none

/-- Example configuration: one allowed root `/ws`, projects root
`/ws/projects`, home `/home/u`, working directory `/cwd`. -/
def cfgEx : Cfg := ⟨[["ws"]], some ["ws", "projects"], ["home", "u"], ["cwd"]⟩

/-- Example filesystem: just the allowed root directory. -/
def fsEx : Fs := ⟨[(["ws"], Node.dir)]⟩

/-- Example filesystem with a project whose metadata file is a symlink
escaping the sandbox to `/secret/s.md`. -/
def fsLink : Fs := ⟨[(["ws"], Node.dir), (["ws", "projects"], Node.dir),
  (["ws", "projects", "proj"], Node.dir),
  (["ws", "projects", "proj", "CLAUDE.md"], Node.symlink ["secret", "s.md"]),
  (["secret"], Node.dir), (["secret", "s.md"], Node.file "classified")]⟩

/-- Example filesystem with one project whose metadata file's first
content line is `Hello world`. -/
def fsHello : Fs := ⟨[(["ws"], Node.dir), (["ws", "projects"], Node.dir),
  (["ws", "projects", "proj"], Node.dir),
  (["ws", "projects", "proj", "CLAUDE.md"], Node.file "# proj

Hello world
")]⟩

/-- Example filesystem with a broken symlink child `/ws/bad` of the root. -/
def fsBroken : Fs := ⟨[(["ws"], Node.dir), (["ws", "bad"], Node.symlink ["gone"])]⟩

/-- Example filesystem with a symlink `/ws/link` inside the root whose
target `/outside` lies outside it. -/
def fsEscape : Fs := ⟨[(["ws"], Node.dir), (["ws", "link"], Node.symlink ["outside"]),
  (["outside"], Node.file "top secret")]⟩

/-- Decomposing a prefix of a `cons`. -/
theorem prefix_cons_cases {α : Type} {pre l : List α} {a : α} (h : pre <+: a :: l) :
    pre = [] ∨ ∃ pre', pre = a :: pre' ∧ pre' <+: l := by
  rcases h with ⟨t, ht⟩
  cases pre with
  | nil => exact Or.inl rfl
  | cons b pre' =>
    injection ht with h1 h2
    exact Or.inr ⟨pre', by rw [h1], ⟨t, h2⟩⟩

/-- A proper prefix is a prefix of `dropLast`. -/
theorem prefix_proper_dropLast {α : Type} {pre l : List α} (h : pre <+: l) (hne : pre ≠ l) :
    pre <+: l.dropLast := by
  have hlt : pre.length < l.length := by
    rcases h.length_le.lt_or_eq with h1 | h1
    · exact h1
    · exact absurd (h.eq_of_length h1) hne
  have htake : pre = l.take pre.length := List.prefix_iff_eq_take.mp h
  rw [List.dropLast_eq_take]
  have : (l.take (l.length - 1)).take pre.length = l.take pre.length := by
    rw [List.take_take, Nat.min_eq_left (by omega)]
  rw [htake, ← this]
  exact List.take_prefix _ _

/-- A successful resolution's output length is bounded by input length plus fuel. -/
theorem resolveSegs_length {fs : Fs} :
    ∀ (fuel : Nat) (acc rest q : List String),
      resolveSegs fs fuel acc rest = some q → q.length ≤ acc.length + fuel := by
  intro fuel
  induction fuel with
  | zero =>
    intro acc rest q h
    cases rest with
    | nil => simp [resolveSegs] at h; simp [← h]
    | cons s r => simp [resolveSegs] at h
  | succ f ih =>
    intro acc rest q h
    cases rest with
    | nil =>
      simp [resolveSegs] at h
      simp [← h]
    | cons seg r =>
      simp only [resolveSegs] at h
      split at h
      · have := ih acc r q h; omega
      · split at h
        · have := ih acc.dropLast r q h
          have := acc.dropLast_sublist.length_le
          omega
        · split at h
          · have := ih [] _ q h; simp at this; omega
          · have := ih (acc ++ [seg]) r q h
            simp at this; omega

/-- A successful resolution's output is physical: plain segments, no
symlink at any nonempty prefix. -/
theorem resolveSegs_physical {fs : Fs} :
    ∀ (fuel : Nat) (acc rest q : List String),
      resolveSegs fs fuel acc rest = some q →
      (∀ s ∈ acc, plainSeg s = true) →
      (∀ pre, pre ≠ [] → pre <+: acc → symlinkAt fs pre = none) →
      (∀ s ∈ q, plainSeg s = true) ∧
        (∀ pre, pre ≠ [] → pre <+: q → symlinkAt fs pre = none) := by
  intro fuel
  induction fuel with
  | zero =>
    intro acc rest q h hplain hpre
    cases rest with
    | nil => simp [resolveSegs] at h; subst h; exact ⟨hplain, hpre⟩
    | cons s r => simp [resolveSegs] at h
  | succ f ih =>
    intro acc rest q h hplain hpre
    cases rest with
    | nil => simp [resolveSegs] at h; subst h; exact ⟨hplain, hpre⟩
    | cons seg r =>
      simp only [resolveSegs] at h
      split at h
      · exact ih acc r q h hplain hpre
      · split at h
        · refine ih acc.dropLast r q h ?_ ?_
          · intro s hs; exact hplain s (acc.dropLast_subset hs)
          · intro pre hne hp
            exact hpre pre hne (hp.trans (List.dropLast_prefix acc))
        · next h1 h2 =>
          rcases hs : symlinkAt fs (acc ++ [seg]) with _ | t
          all_goals rw [hs] at h
          · refine ih (acc ++ [seg]) r q h ?_ ?_
            · intro s hsm
              rcases List.mem_append.mp hsm with hm | hm
              · exact hplain s hm
              · simp at hm
                subst hm
                simp [plainSeg]
                refine ⟨fun he => h1 (Or.inl he), fun he => h1 (Or.inr he), h2⟩
            · intro pre hne hp
              rcases List.prefix_concat_iff.mp hp with he | hp'
              · rw [he]; exact hs
              · exact hpre pre hne hp'
          · refine ih [] (t ++ r) q h ?_ ?_
            · intro s hsm; simp at hsm
            · intro pre hne hp
              simp [List.prefix_nil] at hp
              exact absurd hp hne

/-- Resolving an already-physical path is the identity (with enough fuel). -/
theorem resolveSegs_rerun {fs : Fs} :
    ∀ (rest : List String) (fuel : Nat) (acc : List String),
      (∀ s ∈ rest, plainSeg s = true) →
      (∀ pre, pre ≠ [] → pre <+: acc ++ rest → symlinkAt fs pre = none) →
      rest.length ≤ fuel →
      resolveSegs fs fuel acc rest = some (acc ++ rest) := by
  intro rest
  induction rest with
  | nil => intro fuel acc _ _ _; simp [resolveSegs]
  | cons seg r ih =>
    intro fuel acc hplain hpre hlen
    cases fuel with
    | zero => simp at hlen
    | succ f =>
      have hps := hplain seg (by simp)
      simp [plainSeg] at hps
      have h1 : ¬ (seg = "" ∨ seg = ".") := by
        intro hc; rcases hc with hc | hc
        · exact hps.1 hc
        · exact hps.2.1 hc
      have hsl : symlinkAt fs (acc ++ [seg]) = none := by
        refine hpre _ (by simp) ⟨r, by simp⟩
      simp only [resolveSegs, if_neg h1, if_neg hps.2.2, hsl]
      have := ih f (acc ++ [seg])
        (fun s hs => hplain s (by simp [hs]))
        (fun pre hne hp => hpre pre hne (by simpa [List.append_assoc] using hp))
        (by simp at hlen; omega)
      simpa [List.append_assoc] using this

/-- Resolution depends on the filesystem only through its symlinks. -/
theorem resolveSegs_congr {fs fs' : Fs} (hsym : ∀ p, symlinkAt fs p = symlinkAt fs' p) :
    ∀ (fuel : Nat) (acc rest : List String),
      resolveSegs fs fuel acc rest = resolveSegs fs' fuel acc rest := by
  intro fuel
  induction fuel with
  | zero => intro acc rest; cases rest <;> simp [resolveSegs]
  | succ f ih =>
    intro acc rest
    cases rest with
    | nil => simp [resolveSegs]
    | cons seg r =>
      by_cases h1 : seg = "" ∨ seg = "."
      · simp only [resolveSegs, if_pos h1]; exact ih acc r
      · by_cases h2 : seg = ".."
        · simp only [resolveSegs, if_neg h1, if_pos h2]; exact ih acc.dropLast r
        · simp only [resolveSegs, if_neg h1, if_neg h2, ← hsym]
          rcases hs : symlinkAt fs (acc ++ [seg]) with _ | t
          · exact ih (acc ++ [seg]) r
          · exact ih [] (t ++ r)

/-- The output of `expandResolve` is physical and resolves to itself. -/
theorem expandResolve_physical {cfg : Cfg} {fs : Fs} {s : String} {q : List String}
    (h : expandResolve cfg fs s = some q) :
    (∀ s' ∈ q, plainSeg s' = true) ∧
      (∀ pre, pre ≠ [] → pre <+: q → symlinkAt fs pre = none) ∧
      resolveSegs fs resolveFuel [] q = some q := by
  unfold expandResolve at h
  have hphys := resolveSegs_physical resolveFuel [] _ q h (by simp)
    (by intro pre hne hp; simp [List.prefix_nil] at hp; exact absurd hp hne)
  refine ⟨hphys.1, hphys.2, ?_⟩
  have hlen := resolveSegs_length resolveFuel [] _ q h
  have := resolveSegs_rerun q resolveFuel [] hphys.1
    (by intro pre hne hp; exact hphys.2 pre hne (by simpa using hp))
    (by simpa using hlen)
  simpa using this

/-- On a resolvable candidate, `validate_path` reduces to the
`is_path_allowed` decision on the resolved path. -/
theorem validate_path_eq_decision {cfg : Cfg} {fs : Fs} {s : String} {p : List String}
    (he : expandResolve cfg fs s = some p) :
    validate_path cfg fs s =
      match is_path_allowed cfg fs p with
      | some true => Except.ok p
      | some false => Except.error (Err.pathNotAllowed p)
      | none => Except.error Err.hostFailed := by
  unfold validate_path
  rw [he]

/-- On a physical path, `is_path_allowed` is the allow-list prefix test. -/
theorem is_path_allowed_resolved {cfg : Cfg} {fs : Fs} {p : List String}
    (hres : resolveSegs fs resolveFuel [] p = some p) :
    is_path_allowed cfg fs p =
      some (cfg.allowedDirectories.any (fun allowed => allowed.isPrefixOf p)) := by
  unfold is_path_allowed
  rw [hres]

/-- `validate_path` succeeds with `q` iff `q` is the expanded, resolved
form of the candidate and some allowed directory is a segment-wise
prefix of `q`. -/
theorem validate_path_ok_iff {cfg : Cfg} {fs : Fs} {s : String} {q : List String} :
    validate_path cfg fs s = Except.ok q ↔
      (expandResolve cfg fs s = some q ∧ ∃ r ∈ cfg.allowedDirectories, r <+: q) := by
  constructor
  · intro h
    rcases he : expandResolve cfg fs s with _ | p
    · unfold validate_path at h; rw [he] at h; simp at h
    · rw [validate_path_eq_decision he,
        is_path_allowed_resolved (expandResolve_physical he).2.2] at h
      rcases hb : cfg.allowedDirectories.any (fun allowed => allowed.isPrefixOf p) with _ | _
      all_goals rw [hb] at h
      · simp at h
      · simp only [Except.ok.injEq] at h
        subst h
        rcases List.any_eq_true.mp hb with ⟨r, hr, hpre⟩
        exact ⟨rfl, r, hr, List.isPrefixOf_iff_prefix.mp hpre⟩
  · rintro ⟨he, r, hr, hpre⟩
    rw [validate_path_eq_decision he,
      is_path_allowed_resolved (expandResolve_physical he).2.2]
    have hany : cfg.allowedDirectories.any (fun allowed => allowed.isPrefixOf q) = true :=
      List.any_eq_true.mpr ⟨r, hr, List.isPrefixOf_iff_prefix.mpr hpre⟩
    rw [hany]

/-- A path accepted by `validate_path` is physical and resolves to itself. -/
theorem validate_path_ok_physical {cfg : Cfg} {fs : Fs} {s : String} {q : List String}
    (h : validate_path cfg fs s = Except.ok q) :
    (∀ s' ∈ q, plainSeg s' = true) ∧
      (∀ pre, pre ≠ [] → pre <+: q → symlinkAt fs pre = none) ∧
      resolveSegs fs resolveFuel [] q = some q :=
  expandResolve_physical (validate_path_ok_iff.mp h).1

/-- `validate_path` depends on the filesystem only through its symlinks. -/
theorem validate_path_congr {fs fs' : Fs} (hsym : ∀ p, symlinkAt fs p = symlinkAt fs' p)
    (cfg : Cfg) (s : String) : validate_path cfg fs s = validate_path cfg fs' s := by
  have h1 : expandResolve cfg fs s = expandResolve cfg fs' s := by
    unfold expandResolve; rw [resolveSegs_congr hsym]
  rcases he : expandResolve cfg fs s with _ | p
  · unfold validate_path
    rw [he, ← h1, he]
  · have h2 : is_path_allowed cfg fs p = is_path_allowed cfg fs' p := by
      unfold is_path_allowed; rw [resolveSegs_congr hsym]
    rw [validate_path_eq_decision he, validate_path_eq_decision (h1 ▸ he), h2]

/-- Filtering out a key other than the query does not change lookup. -/
theorem lookupNodes_filter_ne (l : List (List String × Node)) (p k : List String)
    (hk : k ≠ p) :
    lookupNodes (l.filter (fun kv => kv.1 ≠ p)) k = lookupNodes l k := by
  induction l with
  | nil => rfl
  | cons kv rest ih =>
    rw [List.filter_cons]
    by_cases hkv : kv.1 = p
    · rw [if_neg (by simp [hkv])]
      rw [ih]
      cases kv with
      | mk k1 n1 =>
        simp only at hkv
        simp only [lookupNodes]
        rw [if_neg (fun hc : k1 = k => hk (by rw [← hc]; exact hkv))]
    · rw [if_pos (by simpa using hkv)]
      cases kv with
      | mk k1 n1 =>
        simp only [lookupNodes]
        by_cases hk1 : k1 = k
        · simp [hk1]
        · rw [if_neg hk1, if_neg hk1]
          exact ih

/-- Lookup after an insert. -/
theorem lookupFs_setNode (fs : Fs) (p : List String) (n : Node) (k : List String) :
    lookupFs (setNode fs p n) k = if k = p then some n else lookupFs fs k := by
  unfold lookupFs setNode
  by_cases hk : k = p
  · subst hk
    simp [lookupNodes]
  · simp only [lookupNodes]
    rw [if_neg (fun hc : p = k => hk hc.symm), if_neg hk]
    exact lookupNodes_filter_ne fs.nodes p k hk

/-- Lookup after a removal. -/
theorem lookupFs_removeNode (fs : Fs) (p : List String) (k : List String) :
    lookupFs (removeNode fs p) k = if k = p then none else lookupFs fs k := by
  unfold lookupFs removeNode
  by_cases hk : k = p
  · subst hk
    rw [if_pos rfl]
    induction fs.nodes with
    | nil => rfl
    | cons kv rest ih =>
      rw [List.filter_cons]
      by_cases hkv : kv.1 = k
      · rw [if_neg (by simp [hkv])]
        exact ih
      · rw [if_pos (by simpa using hkv)]
        cases kv with
        | mk k1 n1 =>
          simp only [lookupNodes]
          rw [if_neg (by simpa using hkv)]
          exact ih
  · rw [if_neg hk]
    exact lookupNodes_filter_ne fs.nodes p k hk

/-- `symlinkAt` by cases on `nodeAt`. -/
theorem symlinkAt_eq (fs : Fs) (p : List String) :
    symlinkAt fs p =
      match nodeAt fs p with
      | some (Node.symlink t) => some t
      | _ => none := rfl

/-- `nodeAt` after an insert at a nonempty path. -/
theorem nodeAt_setNode {p : List String} (hp : p ≠ []) (fs : Fs) (n : Node) (k : List String) :
    nodeAt (setNode fs p n) k = if k = p then some n else nodeAt fs k := by
  unfold nodeAt
  by_cases hk : k = []
  · subst hk
    rw [if_pos rfl, if_neg (fun hc => hp hc.symm), if_pos rfl]
  · rw [if_neg hk, lookupFs_setNode]
    by_cases hkp : k = p
    · simp [hkp]
    · rw [if_neg hkp, if_neg hkp, if_neg hk]

/-- Inserting a non-symlink node over a non-symlink location preserves
every symlink. -/
theorem symlinkAt_setNode_none {p : List String} (hp : p ≠ []) (fs : Fs) (n : Node)
    (hn : ∀ t, n ≠ Node.symlink t) (hpnone : symlinkAt fs p = none) (k : List String) :
    symlinkAt (setNode fs p n) k = symlinkAt fs k := by
  rw [symlinkAt_eq, symlinkAt_eq, nodeAt_setNode hp]
  by_cases hkp : k = p
  · rw [if_pos hkp, hkp]
    rw [symlinkAt_eq] at hpnone
    cases n with
    | file c => exact hpnone.symm
    | dir => exact hpnone.symm
    | symlink t => exact absurd rfl (hn t)
  · rw [if_neg hkp]

/-- A list is never itself extended by a nonempty suffix. -/
theorem ne_append_right {α : Type} (l pre : List α) (hne : pre ≠ []) : l ≠ l ++ pre := by
  intro hc
  have hlen := congrArg List.length hc
  rw [List.length_append] at hlen
  have h0 : pre.length = 0 := by omega
  exact hne (List.length_eq_zero.mp h0)

/-- `nodeAt` after a removal at a nonempty query path. -/
theorem nodeAt_removeNode (fs : Fs) (p k : List String) (hk : k ≠ []) :
    nodeAt (removeNode fs p) k = if k = p then none else nodeAt fs k := by
  unfold nodeAt
  rw [if_neg hk, lookupFs_removeNode]
  by_cases hkp : k = p
  · rw [if_pos hkp, if_pos hkp]
  · rw [if_neg hkp, if_neg hkp, if_neg hk]

/-- Removing a non-symlink location preserves every symlink. -/
theorem symlinkAt_removeNode_none {fs : Fs} {p : List String}
    (hpnone : symlinkAt fs p = none) (k : List String) :
    symlinkAt (removeNode fs p) k = symlinkAt fs k := by
  by_cases hk : k = []
  · subst hk
    rw [symlinkAt_eq, symlinkAt_eq]
    unfold nodeAt
    rfl
  · rw [symlinkAt_eq, symlinkAt_eq, nodeAt_removeNode fs p k hk]
    by_cases hkp : k = p
    · rw [if_pos hkp, hkp]
      rw [symlinkAt_eq] at hpnone
      exact hpnone.symm
    · rw [if_neg hkp]

/-- What a successful `mkdirParentsAux` run guarantees: symlinks are
untouched, every nonempty prefix of the requested chain is a directory
afterwards, and every location off the chain is untouched. -/
theorem mkdirParentsAux_spec :
    ∀ (rest : List String) (fs : Fs) (acc : List String) (fs' : Fs) (evs : List Event),
      mkdirParentsAux fs acc rest = Except.ok (fs', evs) →
      (∀ k, symlinkAt fs' k = symlinkAt fs k) ∧
        (∀ pre, pre ≠ [] → pre <+: rest → nodeAt fs' (acc ++ pre) = some Node.dir) ∧
        (∀ k, (∀ pre, pre ≠ [] → pre <+: rest → k ≠ acc ++ pre) → nodeAt fs' k = nodeAt fs k) := by
  intro rest
  induction rest with
  | nil =>
    intro fs acc fs' evs h
    simp [mkdirParentsAux] at h
    refine ⟨fun k => by rw [h.1], fun pre hne hp => ?_, fun k _ => by rw [h.1]⟩
    rw [List.prefix_nil] at hp
    exact absurd hp hne
  | cons seg r ih =>
    intro fs acc fs' evs h
    simp only [mkdirParentsAux] at h
    rcases hnode : nodeAt fs (acc ++ [seg]) with _ | n
    · rw [hnode] at h
      rcases hrec : mkdirParentsAux (setNode fs (acc ++ [seg]) Node.dir) (acc ++ [seg]) r
        with e | ⟨fs2, evs2⟩
      all_goals rw [hrec] at h
      · simp at h
      · simp only [Except.ok.injEq, Prod.mk.injEq] at h
        obtain ⟨hfs, _⟩ := h
        subst hfs
        obtain ⟨hsym, hdirs, hpres⟩ := ih _ _ _ _ hrec
        have hcurne : acc ++ [seg] ≠ [] := by simp
        have hslnone : symlinkAt fs (acc ++ [seg]) = none := by
          rw [symlinkAt_eq, hnode]
        have hsetsym := symlinkAt_setNode_none hcurne fs Node.dir
          (fun t => Node.noConfusion) hslnone
        refine ⟨fun k => by rw [hsym k, hsetsym k], ?_, ?_⟩
        · intro pre hne hp
          rcases prefix_cons_cases hp with he | ⟨pre', hpe, hp'⟩
          · exact absurd he hne
          · subst hpe
            cases pre' with
            | nil =>
              have havoid : ∀ pre'', pre'' ≠ [] → pre'' <+: r →
                  acc ++ [seg] ≠ (acc ++ [seg]) ++ pre'' :=
                fun pre'' hne'' _ => ne_append_right (acc ++ [seg]) pre'' hne''
              rw [hpres _ havoid, nodeAt_setNode hcurne, if_pos rfl]
            | cons c cs =>
              have heq : acc ++ seg :: c :: cs = acc ++ [seg] ++ c :: cs := by simp
              rw [heq]
              exact hdirs (c :: cs) (by simp) hp'
        · intro k hk
          have hk' : ∀ pre'', pre'' ≠ [] → pre'' <+: r → k ≠ (acc ++ [seg]) ++ pre'' := by
            intro pre'' hne'' hp'' hc
            refine hk (seg :: pre'') (by simp) (List.cons_prefix_cons.mpr ⟨rfl, hp''⟩) ?_
            rw [hc]
            simp
          rw [hpres k hk', nodeAt_setNode hcurne,
            if_neg (hk [seg] (by simp) ⟨r, rfl⟩)]
    · rw [hnode] at h
      cases n with
      | dir =>
        obtain ⟨hsym, hdirs, hpres⟩ := ih _ _ _ _ h
        refine ⟨hsym, ?_, ?_⟩
        · intro pre hne hp
          rcases prefix_cons_cases hp with he | ⟨pre', hpe, hp'⟩
          · exact absurd he hne
          · subst hpe
            cases pre' with
            | nil =>
              have havoid : ∀ pre'', pre'' ≠ [] → pre'' <+: r →
                  acc ++ [seg] ≠ (acc ++ [seg]) ++ pre'' :=
                fun pre'' hne'' _ => ne_append_right (acc ++ [seg]) pre'' hne''
              rw [hpres _ havoid]
              exact hnode
            | cons c cs =>
              have heq : acc ++ seg :: c :: cs = acc ++ [seg] ++ c :: cs := by simp
              rw [heq]
              exact hdirs (c :: cs) (by simp) hp'
        · intro k hk
          refine hpres k ?_
          intro pre'' hne'' hp'' hc
          refine hk (seg :: pre'') (by simp) (List.cons_prefix_cons.mpr ⟨rfl, hp''⟩) ?_
          rw [hc]
          simp
      | file c => simp at h
      | symlink t => simp at h

/-- Re-running mkdir over an existing directory chain changes nothing
and creates nothing. -/
theorem mkdirParentsAux_noop :
    ∀ (rest : List String) (fs : Fs) (acc : List String),
      (∀ pre, pre ≠ [] → pre <+: rest → nodeAt fs (acc ++ pre) = some Node.dir) →
      mkdirParentsAux fs acc rest = Except.ok (fs, []) := by
  intro rest
  induction rest with
  | nil => intro fs acc _; rfl
  | cons seg r ih =>
    intro fs acc hdirs
    simp only [mkdirParentsAux]
    rw [hdirs [seg] (by simp) ⟨r, rfl⟩]
    refine ih fs (acc ++ [seg]) ?_
    intro pre hne hp
    have heq : acc ++ [seg] ++ pre = acc ++ seg :: pre := by simp
    rw [heq]
    exact hdirs (seg :: pre) (by simp) (List.cons_prefix_cons.mpr ⟨rfl, hp⟩)

/-- mkdir succeeds whenever no component of the chain exists as a
non-directory. -/
theorem mkdirParentsAux_ok :
    ∀ (rest : List String) (fs : Fs) (acc : List String),
      (∀ pre, pre ≠ [] → pre <+: rest →
        nodeAt fs (acc ++ pre) = some Node.dir ∨ nodeAt fs (acc ++ pre) = none) →
      ∃ fs' evs, mkdirParentsAux fs acc rest = Except.ok (fs', evs) := by
  intro rest
  induction rest with
  | nil => intro fs acc _; exact ⟨fs, [], rfl⟩
  | cons seg r ih =>
    intro fs acc hclean
    simp only [mkdirParentsAux]
    rcases hclean [seg] (by simp) ⟨r, rfl⟩ with hdir | hnone
    · rw [hdir]
      refine ih fs (acc ++ [seg]) ?_
      intro pre hne hp
      have heq : acc ++ [seg] ++ pre = acc ++ seg :: pre := by simp
      rw [heq]
      exact hclean (seg :: pre) (by simp) (List.cons_prefix_cons.mpr ⟨rfl, hp⟩)
    · have hclean' : ∀ pre, pre ≠ [] → pre <+: r →
          nodeAt (setNode fs (acc ++ [seg]) Node.dir) (acc ++ [seg] ++ pre) = some Node.dir ∨
            nodeAt (setNode fs (acc ++ [seg]) Node.dir) (acc ++ [seg] ++ pre) = none := by
        intro pre hne hp
        rw [nodeAt_setNode (by simp : acc ++ [seg] ≠ []),
          if_neg (fun hc => ne_append_right (acc ++ [seg]) pre hne hc.symm)]
        have heq : acc ++ [seg] ++ pre = acc ++ seg :: pre := by simp
        rw [heq]
        exact hclean (seg :: pre) (by simp) (List.cons_prefix_cons.mpr ⟨rfl, hp⟩)
      rcases ih (setNode fs (acc ++ [seg]) Node.dir) (acc ++ [seg]) hclean' with ⟨fs2, evs2, hrec⟩
      rw [hnone, hrec]
      exact ⟨fs2, Event.write (acc ++ [seg]) :: evs2, rfl⟩

/-- What a successful `writeText` reveals. -/
theorem writeText_ok {fs : Fs} {p : List String} {content : String} {fs2 : Fs} {ev : Event}
    (h : writeText fs p content = Except.ok (fs2, ev)) :
    fs2 = setNode fs p (Node.file content) ∧ ev = Event.write p ∧
      symlinkAt fs p = none ∧ dirAt fs p.dropLast = true ∧ p ≠ [] := by
  have hne : p ≠ [] := by
    intro hc
    subst hc
    unfold writeText nodeAt at h
    simp at h
  unfold writeText at h
  rcases hn : nodeAt fs p with _ | n
  · rw [hn] at h
    split at h
    · simp at h
    · simp at h
    · split at h
      · next hdir =>
        simp only [Except.ok.injEq, Prod.mk.injEq] at h
        exact ⟨h.1.symm, h.2.symm, by rw [symlinkAt_eq, hn], hdir, hne⟩
      · simp at h
  · rw [hn] at h
    cases n with
    | dir => simp at h
    | symlink t => simp at h
    | file c =>
      split at h
      · simp at h
      · simp at h
      · split at h
        · next hdir =>
          simp only [Except.ok.injEq, Prod.mk.injEq] at h
          exact ⟨h.1.symm, h.2.symm, by rw [symlinkAt_eq, hn], hdir, hne⟩
        · simp at h

/-- `writeText` succeeds on a fresh or regular-file location with a
directory parent. -/
theorem writeText_ok_of {fs : Fs} {p : List String} (content : String)
    (hn : nodeAt fs p = none ∨ ∃ c, nodeAt fs p = some (Node.file c))
    (hparent : dirAt fs p.dropLast = true) :
    writeText fs p content = Except.ok (setNode fs p (Node.file content), Event.write p) := by
  unfold writeText
  rcases hn with hn | ⟨c, hn⟩
  all_goals rw [hn, if_pos hparent]

/-- `mkdirSimple` succeeds on a fresh location with a directory parent. -/
theorem mkdirSimple_ok {fs : Fs} {p : List String}
    (hn : nodeAt fs p = none) (hparent : dirAt fs p.dropLast = true) :
    mkdirSimple fs p = Except.ok (setNode fs p Node.dir, Event.write p) := by
  unfold mkdirSimple
  rw [hn]
  simp [hparent]

/-- `fsExists` on a self-resolving path is node presence. -/
theorem fsExists_physical {fs : Fs} {q : List String}
    (hres : resolveSegs fs resolveFuel [] q = some q) :
    fsExists fs q = (nodeAt fs q).isSome := by
  unfold fsExists
  rw [hres]

/-- `fsIsDir` on a self-resolving path is `dirAt`. -/
theorem fsIsDir_physical {fs : Fs} {q : List String}
    (hres : resolveSegs fs resolveFuel [] q = some q) :
    fsIsDir fs q = dirAt fs q := by
  unfold fsIsDir
  rw [hres]

/-- `fsIsFile` on a self-resolving path tests the stored node. -/
theorem fsIsFile_physical {fs : Fs} {q : List String}
    (hres : resolveSegs fs resolveFuel [] q = some q) :
    fsIsFile fs q =
      match nodeAt fs q with
      | some (Node.file _) => true
      | _ => false := by
  unfold fsIsFile
  rw [hres]

/-- `readText` on a self-resolving path reads the stored file. -/
theorem readText_physical {fs : Fs} {q : List String} {c : String}
    (hres : resolveSegs fs resolveFuel [] q = some q)
    (hn : nodeAt fs q = some (Node.file c)) :
    readText fs q = Except.ok (univNewlinesStr c, q) := by
  unfold readText
  rw [hres]
  simp [hn]

/-- On a physical resolved path, `is_path_allowed` decides exactly the
allow-list ancestor test. -/
theorem is_path_allowed_some_iff {cfg : Cfg} {fs : Fs} {p q : List String}
    (h : resolveSegs fs resolveFuel [] p = some q) :
    is_path_allowed cfg fs p = some true ↔ ∃ r ∈ cfg.allowedDirectories, r <+: q := by
  unfold is_path_allowed
  rw [h]
  constructor
  · intro hh
    simp only [Option.some.injEq] at hh
    rcases List.any_eq_true.mp hh with ⟨r, hr, hpre⟩
    exact ⟨r, hr, List.isPrefixOf_iff_prefix.mp hpre⟩
  · rintro ⟨r, hr, hpre⟩
    simp only [Option.some.injEq]
    exact List.any_eq_true.mpr ⟨r, hr, List.isPrefixOf_iff_prefix.mpr hpre⟩

/-- A failed validation aborts `read_file` before any I/O. -/
theorem read_file_invalid {cfg : Cfg} {fs : Fs} {path : String} {e : Err}
    (h : validate_path cfg fs path = Except.error e) :
    read_file cfg fs path = ⟨OpResult.err e, fs, [], []⟩ := by
  unfold read_file
  rw [h]

/-- A failed validation aborts `write_file` before any I/O. -/
theorem write_file_invalid {cfg : Cfg} {fs : Fs} {path content : String} {e : Err}
    (h : validate_path cfg fs path = Except.error e) :
    write_file cfg fs path content = ⟨OpResult.err e, fs, [], []⟩ := by
  unfold write_file
  rw [h]

/-- A failed validation aborts `list_directory` before any I/O. -/
theorem list_directory_invalid {cfg : Cfg} {fs : Fs} {path : String} {e : Err}
    (h : validate_path cfg fs path = Except.error e) :
    list_directory cfg fs path = ⟨OpResult.err e, fs, [], []⟩ := by
  unfold list_directory
  rw [h]

/-- A failed validation aborts `create_directory` before any I/O. -/
theorem create_directory_invalid {cfg : Cfg} {fs : Fs} {path : String} {e : Err}
    (h : validate_path cfg fs path = Except.error e) :
    create_directory cfg fs path = ⟨OpResult.err e, fs, [], []⟩ := by
  unfold create_directory
  rw [h]

/-- A failed validation aborts `delete_file` before any I/O. -/
theorem delete_file_invalid {cfg : Cfg} {fs : Fs} {path : String} {e : Err}
    (h : validate_path cfg fs path = Except.error e) :
    delete_file cfg fs path = ⟨OpResult.err e, fs, [], []⟩ := by
  unfold delete_file
  rw [h]

/-- A failed source validation aborts `move_file` before any I/O. -/
theorem move_file_invalid_src {cfg : Cfg} {fs : Fs} {source destination : String} {e : Err}
    (h : validate_path cfg fs source = Except.error e) :
    move_file cfg fs source destination = ⟨OpResult.err e, fs, [], []⟩ := by
  unfold move_file
  rw [h]

/-- A failed destination validation aborts `move_file` before any I/O. -/
theorem move_file_invalid_dst {cfg : Cfg} {fs : Fs} {source destination : String}
    {sp : List String} {e : Err}
    (hs : validate_path cfg fs source = Except.ok sp)
    (h : validate_path cfg fs destination = Except.error e) :
    move_file cfg fs source destination = ⟨OpResult.err e, fs, [], [sp]⟩ := by
  unfold move_file
  rw [hs, h]

/-- A failed validation aborts `open_in_finder` before any I/O. -/
theorem open_in_finder_invalid {cfg : Cfg} {fs : Fs} {path : String} {e : Err}
    (ex : List String → Nat) (hne : path ≠ "")
    (h : validate_path cfg fs path = Except.error e) :
    open_in_finder cfg fs ex path = ⟨OpResult.err e, fs, [], []⟩ := by
  unfold open_in_finder
  rw [if_pos hne, h]

/-- Claim C1: for every configured allow-list and candidate path string,
`validate_path` succeeds and returns the resolved path iff the
home-expanded, symlink-resolved, `..`-collapsed form of the candidate
equals, or is a segment-wise descendant of, some allowed root (and
`is_path_allowed` decides the same ancestor test on the resolved form);
in particular `/a/bfoo` against allow-root `/a/b`, and `R/../R-sibling/x`
against `R`, are rejected despite their string-prefix relationship. -/
theorem claim_C1 :
    (∀ (cfg : Cfg) (fs : Fs) (s : String) (q : List String),
      validate_path cfg fs s = Except.ok q ↔
        (expandResolve cfg fs s = some q ∧ ∃ r ∈ cfg.allowedDirectories, r <+: q)) ∧
    (∀ (cfg : Cfg) (fs : Fs) (p q : List String),
      resolveSegs fs resolveFuel [] p = some q →
      (is_path_allowed cfg fs p = some true ↔ ∃ r ∈ cfg.allowedDirectories, r <+: q)) ∧
    validate_path ⟨[["a", "b"]], none, [], []⟩ ⟨[]⟩ "/a/bfoo"
      = Except.error (Err.pathNotAllowed ["a", "bfoo"]) ∧
    validate_path ⟨[["r"]], none, [], []⟩ ⟨[]⟩ "/r/../r-sibling/x"
      = Except.error (Err.pathNotAllowed ["r-sibling", "x"]) := by
  refine ⟨fun cfg fs s q => validate_path_ok_iff,
    fun cfg fs p q h => is_path_allowed_some_iff h, by decide, by decide⟩

/-- Witness for C1 at a concrete accepting input. -/
theorem claim_C1_witness :
    validate_path cfgEx fsEx "/ws/x.txt" = Except.ok ["ws", "x.txt"] :=
  (claim_C1.1 cfgEx fsEx "/ws/x.txt" ["ws", "x.txt"]).mpr
    ⟨by decide, ["ws"], by decide, ⟨["x.txt"], rfl⟩⟩

/-- Claim C10: with an empty allow-list, path validation is fail-closed:
`is_path_allowed` never answers true, `validate_path` never succeeds and
rejects every resolvable candidate with `PathNotAllowed`, and every
path-taking operation denies every request. -/
theorem claim_C10 :
    ∀ (cfg : Cfg) (fs : Fs) (s d C : String) (p q : List String) (ex : List String → Nat),
      cfg.allowedDirectories = [] →
      is_path_allowed cfg fs p ≠ some true ∧
      validate_path cfg fs s ≠ Except.ok q ∧
      (expandResolve cfg fs s = some q →
        validate_path cfg fs s = Except.error (Err.pathNotAllowed q)) ∧
      (read_file cfg fs s).result.isOk = false ∧
      (write_file cfg fs s C).result.isOk = false ∧
      (list_directory cfg fs s).result.isOk = false ∧
      (create_directory cfg fs s).result.isOk = false ∧
      (delete_file cfg fs s).result.isOk = false ∧
      (move_file cfg fs s d).result.isOk = false ∧
      (open_in_finder cfg fs ex s).result.isOk = false := by
  intro cfg fs s d C p q ex hroots
  have hnotok : ∀ (s' : String) (q' : List String),
      validate_path cfg fs s' ≠ Except.ok q' := by
    intro s' q' hc
    rcases (validate_path_ok_iff.mp hc).2 with ⟨r, hr, _⟩
    rw [hroots] at hr
    exact absurd hr (List.not_mem_nil r)
  have herr : ∀ s' : String, ∃ e, validate_path cfg fs s' = Except.error e := by
    intro s'
    rcases hv : validate_path cfg fs s' with e | fp
    · exact ⟨e, rfl⟩
    · exact absurd hv (hnotok s' fp)
  refine ⟨?_, hnotok s q, ?_, ?_, ?_, ?_, ?_, ?_, ?_, ?_⟩
  · unfold is_path_allowed
    rcases hr : resolveSegs fs resolveFuel [] p with _ | rp
    · simp
    · rw [hroots]
      simp
  · intro he
    rw [validate_path_eq_decision he,
      is_path_allowed_resolved (expandResolve_physical he).2.2, hroots]
    rfl
  · rcases herr s with ⟨e, hv⟩; rw [read_file_invalid hv]; rfl
  · rcases herr s with ⟨e, hv⟩; rw [write_file_invalid hv]; rfl
  · rcases herr s with ⟨e, hv⟩; rw [list_directory_invalid hv]; rfl
  · rcases herr s with ⟨e, hv⟩; rw [create_directory_invalid hv]; rfl
  · rcases herr s with ⟨e, hv⟩; rw [delete_file_invalid hv]; rfl
  · rcases herr s with ⟨e, hv⟩; rw [move_file_invalid_src hv]; rfl
  · by_cases hs : s = ""
    · subst hs
      unfold open_in_finder
      rw [if_neg (by simp), hroots]
      rfl
    · rcases herr s with ⟨e, hv⟩
      rw [open_in_finder_invalid ex hs hv]
      rfl

/-- Witness for C10 at a concrete empty-allow-list configuration. -/
theorem claim_C10_witness :
    is_path_allowed ⟨[], none, [], []⟩ fsEx ["etc"] ≠ some true ∧
      validate_path ⟨[], none, [], []⟩ fsEx "/etc/passwd" ≠ Except.ok ["etc", "passwd"] ∧
      (expandResolve ⟨[], none, [], []⟩ fsEx "/etc/passwd" = some ["etc", "passwd"] →
        validate_path ⟨[], none, [], []⟩ fsEx "/etc/passwd"
          = Except.error (Err.pathNotAllowed ["etc", "passwd"])) ∧
      (read_file ⟨[], none, [], []⟩ fsEx "/etc/passwd").result.isOk = false ∧
      (write_file ⟨[], none, [], []⟩ fsEx "/etc/passwd" "x").result.isOk = false ∧
      (list_directory ⟨[], none, [], []⟩ fsEx "/etc/passwd").result.isOk = false ∧
      (create_directory ⟨[], none, [], []⟩ fsEx "/etc/passwd").result.isOk = false ∧
      (delete_file ⟨[], none, [], []⟩ fsEx "/etc/passwd").result.isOk = false ∧
      (move_file ⟨[], none, [], []⟩ fsEx "/etc/passwd" "/b").result.isOk = false ∧
      (open_in_finder ⟨[], none, [], []⟩ fsEx (fun _ => 0) "/etc/passwd").result.isOk = false :=
  claim_C10 ⟨[], none, [], []⟩ fsEx "/etc/passwd" "/b" "x" ["etc"] ["etc", "passwd"]
    (fun _ => 0) rfl

/-- Claim C2 counterexample: `list_projects` performs a filesystem read
on `/secret/s.md` — a path outside every allowed root, reached through a
symlink planted under the projects root — with no successful
`validate_path` check anywhere in the run, and returns normally instead
of rejecting the symlink escape. -/
theorem claim_C2_counterexample :
    Event.read ["secret", "s.md"] ∈ (list_projects cfgEx fsLink).events ∧
      (list_projects cfgEx fsLink).validated = [] ∧
      is_path_allowed cfgEx fsLink ["secret", "s.md"] = some false ∧
      (list_projects cfgEx fsLink).result.isOk = true := by
  refine ⟨by decide, by decide, by decide, by decide⟩

/-- Claim C2 (amended): each path-taking operation (`read_file`,
`write_file`, `list_directory`, `create_directory`, `delete_file`,
`move_file`, and `open_in_finder` with a non-empty path) validates every
caller-supplied path before any I/O: a candidate whose resolved form
escapes every allowed root (e.g. through a symlink) is rejected with
`PathNotAllowed`, and on any validation failure the operation performs
no I/O event and leaves the filesystem unchanged. (`list_projects` and
`create_project` touch only paths derived from the projects root and
call no validation; see the counterexample.) -/
theorem claim_C2 :
    ∀ (cfg : Cfg) (fs : Fs) (s d C : String) (ex : List String → Nat),
      (∀ q, expandResolve cfg fs s = some q →
        (¬ ∃ r ∈ cfg.allowedDirectories, r <+: q) →
        validate_path cfg fs s = Except.error (Err.pathNotAllowed q)) ∧
      ∀ e, validate_path cfg fs s = Except.error e →
        read_file cfg fs s = ⟨OpResult.err e, fs, [], []⟩ ∧
        write_file cfg fs s C = ⟨OpResult.err e, fs, [], []⟩ ∧
        list_directory cfg fs s = ⟨OpResult.err e, fs, [], []⟩ ∧
        create_directory cfg fs s = ⟨OpResult.err e, fs, [], []⟩ ∧
        delete_file cfg fs s = ⟨OpResult.err e, fs, [], []⟩ ∧
        move_file cfg fs s d = ⟨OpResult.err e, fs, [], []⟩ ∧
        (∀ sp, validate_path cfg fs d = Except.ok sp →
          move_file cfg fs d s = ⟨OpResult.err e, fs, [], [sp]⟩) ∧
        (s ≠ "" → open_in_finder cfg fs ex s = ⟨OpResult.err e, fs, [], []⟩) := by
  intro cfg fs s d C ex
  constructor
  · intro q he hnall
    rw [validate_path_eq_decision he,
      is_path_allowed_resolved (expandResolve_physical he).2.2]
    rcases hb : cfg.allowedDirectories.any (fun allowed => allowed.isPrefixOf q) with _ | _
    · rfl
    · exfalso
      rcases List.any_eq_true.mp hb with ⟨r, hr, hpre⟩
      exact hnall ⟨r, hr, List.isPrefixOf_iff_prefix.mp hpre⟩
  · intro e hv
    exact ⟨read_file_invalid hv, write_file_invalid hv, list_directory_invalid hv,
      create_directory_invalid hv, delete_file_invalid hv, move_file_invalid_src hv,
      fun sp hsp => move_file_invalid_dst hsp hv,
      fun hne => open_in_finder_invalid ex hne hv⟩

/-- Witness for the amended C2: a symlink escaping the sandbox is
rejected, and the rejected operation performs no I/O. -/
theorem claim_C2_witness :
    validate_path cfgEx fsEscape "/ws/link" = Except.error (Err.pathNotAllowed ["outside"]) ∧
      read_file cfgEx fsEscape "/ws/link"
        = ⟨OpResult.err (Err.pathNotAllowed ["outside"]), fsEscape, [], []⟩ ∧
      delete_file cfgEx fsEscape "/ws/link"
        = ⟨OpResult.err (Err.pathNotAllowed ["outside"]), fsEscape, [], []⟩ := by
  have h := (claim_C2 cfgEx fsEscape "/ws/link" "/ws/d" "hi" (fun _ => 0)).2
    (Err.pathNotAllowed ["outside"]) (by decide)
  exact ⟨by decide, h.1, h.2.2.2.2.1⟩

/-- Claim C5: for a validated path resolving to an existing directory,
`delete_file` fails with the WrongType error kind and performs no
deletion; for a validated path that does not exist it fails with
NotFound; in both cases the filesystem is unchanged and no I/O event is
performed. -/
theorem claim_C5 :
    ∀ (cfg : Cfg) (fs : Fs) (P : String) (fp : List String),
      validate_path cfg fs P = Except.ok fp →
      (fsIsDir fs fp = true →
        delete_file cfg fs P = ⟨OpResult.err (Err.wrongType P), fs, [], [fp]⟩) ∧
      (fsExists fs fp = false →
        delete_file cfg fs P = ⟨OpResult.err (Err.notFound P), fs, [], [fp]⟩) := by
  intro cfg fs P fp hv
  obtain ⟨hplain, hsymp, hres⟩ := validate_path_ok_physical hv
  constructor
  · intro hdir
    rw [fsIsDir_physical hres] at hdir
    simp only [dirAt, decide_eq_true_eq] at hdir
    have hex : fsExists fs fp = true := by
      rw [fsExists_physical hres, hdir]
      rfl
    have hnf : fsIsFile fs fp = false := by
      rw [fsIsFile_physical hres, hdir]
    unfold delete_file
    rw [hv]
    simp [hex, hnf]
  · intro hex
    unfold delete_file
    rw [hv]
    simp [hex]

/-- Witness for C5: deleting the root directory and a missing file. -/
theorem claim_C5_witness :
    delete_file cfgEx fsEx "/ws" = ⟨OpResult.err (Err.wrongType "/ws"), fsEx, [], [["ws"]]⟩ ∧
      delete_file cfgEx fsEx "/ws/none"
        = ⟨OpResult.err (Err.notFound "/ws/none"), fsEx, [], [["ws", "none"]]⟩ :=
  ⟨(claim_C5 cfgEx fsEx "/ws" ["ws"] (by decide)).1 (by decide),
    (claim_C5 cfgEx fsEx "/ws/none" ["ws", "none"] (by decide)).2 (by decide)⟩

/-- Claim C4: `create_directory` is idempotent: after a successful call,
repeating it succeeds with the same message, changes nothing, creates
nothing, and the target exists as one directory (missing ancestors were
created by the first call). -/
theorem claim_C4 :
    ∀ (cfg : Cfg) (fs : Fs) (P : String),
      (create_directory cfg fs P).result.isOk = true →
      ∃ dp fs1 evs,
        validate_path cfg fs P = Except.ok dp ∧
        create_directory cfg fs P
          = ⟨OpResult.ok ("Successfully created directory: " ++ P), fs1, evs, [dp]⟩ ∧
        create_directory cfg fs1 P
          = ⟨OpResult.ok ("Successfully created directory: " ++ P), fs1, [], [dp]⟩ ∧
        fsIsDir fs1 dp = true ∧ fsExists fs1 dp = true := by
  intro cfg fs P hok
  rcases hv : validate_path cfg fs P with e | dp
  · rw [create_directory_invalid hv] at hok
    simp [OpResult.isOk] at hok
  · obtain ⟨hplain, hsymp, hres⟩ := validate_path_ok_physical hv
    rcases hmk : mkdirParents fs dp with e | ⟨fs1, evs⟩
    · unfold create_directory at hok
      rw [hv] at hok
      simp [hmk, OpResult.isOk] at hok
    · have hrun : create_directory cfg fs P
          = ⟨OpResult.ok ("Successfully created directory: " ++ P), fs1, evs, [dp]⟩ := by
        unfold create_directory
        rw [hv]
        simp only [hmk]
      obtain ⟨hsym1, hdirs1, hpres1⟩ := mkdirParentsAux_spec dp fs [] fs1 evs
        (by unfold mkdirParents at hmk; exact hmk)
      have hdirs1' : ∀ pre, pre ≠ [] → pre <+: dp → nodeAt fs1 pre = some Node.dir := by
        intro pre hne hp
        simpa using hdirs1 pre hne hp
      have hv1 : validate_path cfg fs1 P = Except.ok dp := by
        rw [validate_path_congr hsym1 cfg P]
        exact hv
      have hnoop : mkdirParents fs1 dp = Except.ok (fs1, []) := by
        unfold mkdirParents
        exact mkdirParentsAux_noop dp fs1 []
          (fun pre hne hp => by simpa using hdirs1' pre hne hp)
      have hres1 : resolveSegs fs1 resolveFuel [] dp = some dp := by
        rw [resolveSegs_congr hsym1]
        exact hres
      have hdir1 : dirAt fs1 dp = true := by
        by_cases hdp : dp = []
        · subst hdp
          unfold dirAt nodeAt
          simp
        · unfold dirAt
          rw [hdirs1' dp hdp (List.prefix_refl dp)]
          simp
      refine ⟨dp, fs1, evs, rfl, hrun, ?_, ?_, ?_⟩
      · unfold create_directory
        rw [hv1]
        simp only [hnoop]
      · rw [fsIsDir_physical hres1]
        exact hdir1
      · rw [fsExists_physical hres1]
        unfold dirAt at hdir1
        simp only [decide_eq_true_eq] at hdir1
        rw [hdir1]
        rfl

/-- Witness for C4: creating a nested directory twice changes nothing
the second time. -/
theorem claim_C4_witness :
    create_directory cfgEx
        ⟨[(["ws", "d1", "d2"], Node.dir), (["ws", "d1"], Node.dir), (["ws"], Node.dir)]⟩
        "/ws/d1/d2"
      = ⟨OpResult.ok ("Successfully created directory: " ++ "/ws/d1/d2"),
          ⟨[(["ws", "d1", "d2"], Node.dir), (["ws", "d1"], Node.dir), (["ws"], Node.dir)]⟩,
          [], [["ws", "d1", "d2"]]⟩ := by
  rcases claim_C4 cfgEx fsEx "/ws/d1/d2" (by decide) with ⟨dp, fs1, evs, hv, h1, h2, h3, h4⟩
  have hvc : validate_path cfgEx fsEx "/ws/d1/d2" = Except.ok ["ws", "d1", "d2"] := by decide
  rw [hv] at hvc
  injection hvc with hdp
  subst hdp
  have hc : create_directory cfgEx fsEx "/ws/d1/d2"
      = ⟨OpResult.ok ("Successfully created directory: " ++ "/ws/d1/d2"),
          ⟨[(["ws", "d1", "d2"], Node.dir), (["ws", "d1"], Node.dir), (["ws"], Node.dir)]⟩,
          [Event.write ["ws", "d1"], Event.write ["ws", "d1", "d2"]],
          [["ws", "d1", "d2"]]⟩ := by decide
  rw [h1] at hc
  simp at hc
  obtain ⟨hfs, -⟩ := hc
  rw [← hfs]
  exact h2

/-- Universal-newline translation fixes carriage-return-free text. -/
theorem univNewlines_of_no_cr :
    ∀ l : List Char, (∀ c ∈ l, c ≠ '\r') → univNewlines l = l := by
  intro l
  induction l with
  | nil => intro _; rfl
  | cons c rest ih =>
    intro hno
    have hc : c ≠ '\r' := hno c (by simp)
    cases rest with
    | nil => simp [univNewlines, hc]
    | cons c2 rest2 =>
      unfold univNewlines
      rw [if_neg hc, ih (fun d hd => hno d (by simp [hd]))]

/-- `univNewlines_of_no_cr` on a `String`. -/
theorem univNewlinesStr_of_no_cr (s : String) (h : ∀ c ∈ s.data, c ≠ '\r') :
    univNewlinesStr s = s := by
  unfold univNewlinesStr
  rw [univNewlines_of_no_cr s.data h]

/-- Counterexample to C3 as stated: the write/read round trip is not
exact for carriage-return-bearing content. Writing `"a\rb"` to an
allowed path succeeds and reports 3 characters written, but the
immediately following read returns `"a\nb"`, because `Path.read_text()`
applies universal-newline translation (`"\r\n"` and `"\r"` become
`"\n"`) while `Path.write_text(content)` stores the text verbatim. -/
theorem claim_C3_counterexample :
    (write_file cfgEx fsEx "/ws/a.txt" "a\rb").result
      = OpResult.ok "Successfully wrote 3 characters to /ws/a.txt" ∧
    (read_file cfgEx (write_file cfgEx fsEx "/ws/a.txt" "a\rb").fs "/ws/a.txt").result
      = OpResult.ok "a\nb" ∧
    ("a\nb" : String) ≠ "a\rb" := by
  refine ⟨by decide, by decide, by decide⟩

/-- Claim C3 (amended): a successful `write_file P C` reports the
character count of `C`, creates every missing parent directory of the
validated path, and stores `C` verbatim; the immediately following
`read_file P` returns `C` with universal-newline translation applied
(each `"\r\n"` and each lone `"\r"` read back as `"\n"`), which is
exactly `C` whenever `C` contains no carriage return. -/
theorem claim_C3 :
    ∀ (cfg : Cfg) (fs : Fs) (P C : String),
      (write_file cfg fs P C).result.isOk = true →
      ∃ fp fs2 evs,
        validate_path cfg fs P = Except.ok fp ∧
        write_file cfg fs P C
          = ⟨OpResult.ok ("Successfully wrote " ++ toString C.length
              ++ " characters to " ++ P), fs2, evs, [fp]⟩ ∧
        (read_file cfg fs2 P).result = OpResult.ok (univNewlinesStr C) ∧
        ((∀ c ∈ C.data, c ≠ '\r') → (read_file cfg fs2 P).result = OpResult.ok C) ∧
        nodeAt fs2 fp = some (Node.file C) ∧
        (∀ pre, pre ≠ [] → pre ≠ fp → pre <+: fp → dirAt fs2 pre = true) := by
  intro cfg fs P C hok
  rcases hv : validate_path cfg fs P with e | fp
  · rw [write_file_invalid hv] at hok
    simp [OpResult.isOk] at hok
  · obtain ⟨hplain, hsymp, hres⟩ := validate_path_ok_physical hv
    rcases hmk : mkdirParents fs fp.dropLast with e | ⟨fs1, evs1⟩
    · unfold write_file at hok
      rw [hv] at hok
      simp [hmk, OpResult.isOk] at hok
    · rcases hwr : writeText fs1 fp C with e | ⟨fs2, ev⟩
      · unfold write_file at hok
        rw [hv] at hok
        simp [hmk, hwr, OpResult.isOk] at hok
      · have hrun : write_file cfg fs P C
            = ⟨OpResult.ok ("Successfully wrote " ++ toString C.length
                ++ " characters to " ++ P), fs2, evs1 ++ [ev], [fp]⟩ := by
          unfold write_file
          rw [hv]
          simp only [hmk, hwr]
        obtain ⟨hfs2, hev, hslfp1, hparent1, hfpne⟩ := writeText_ok hwr
        obtain ⟨hsym1, hdirs1, hpres1⟩ := mkdirParentsAux_spec fp.dropLast fs [] fs1 evs1
          (by unfold mkdirParents at hmk; exact hmk)
        subst hfs2
        have hsym2 : ∀ k, symlinkAt (setNode fs1 fp (Node.file C)) k = symlinkAt fs1 k :=
          symlinkAt_setNode_none hfpne fs1 (Node.file C) (fun t => Node.noConfusion) hslfp1
        have hsym20 : ∀ k, symlinkAt (setNode fs1 fp (Node.file C)) k = symlinkAt fs k :=
          fun k => (hsym2 k).trans (hsym1 k)
        have hv2 : validate_path cfg (setNode fs1 fp (Node.file C)) P = Except.ok fp := by
          rw [validate_path_congr hsym20 cfg P]
          exact hv
        have hres2 : resolveSegs (setNode fs1 fp (Node.file C)) resolveFuel [] fp = some fp := by
          rw [resolveSegs_congr hsym20]
          exact hres
        have hnode2 : nodeAt (setNode fs1 fp (Node.file C)) fp = some (Node.file C) := by
          rw [nodeAt_setNode hfpne, if_pos rfl]
        have hread : (read_file cfg (setNode fs1 fp (Node.file C)) P).result
            = OpResult.ok (univNewlinesStr C) := by
          unfold read_file
          rw [hv2]
          have hex : fsExists (setNode fs1 fp (Node.file C)) fp = true := by
            rw [fsExists_physical hres2, hnode2]
            rfl
          have hisf : fsIsFile (setNode fs1 fp (Node.file C)) fp = true := by
            rw [fsIsFile_physical hres2, hnode2]
          simp [hex, hisf, readText_physical hres2 hnode2]
        have hparents : ∀ pre, pre ≠ [] → pre ≠ fp → pre <+: fp →
            dirAt (setNode fs1 fp (Node.file C)) pre = true := by
          intro pre hne hnefp hp
          have hp' : pre <+: fp.dropLast := prefix_proper_dropLast hp hnefp
          have hd1 : nodeAt fs1 pre = some Node.dir := by
            simpa using hdirs1 pre hne hp'
          unfold dirAt
          rw [nodeAt_setNode hfpne, if_neg hnefp, hd1]
          simp
        exact ⟨fp, setNode fs1 fp (Node.file C), evs1 ++ [ev], rfl, hrun, hread,
          fun hno => by rw [hread, univNewlinesStr_of_no_cr C hno], hnode2, hparents⟩

/-- Witness for C3: writing and reading back a file two levels deep. -/
theorem claim_C3_witness :
    (read_file cfgEx
        ⟨[(["ws", "notes", "a.txt"], Node.file "hi"), (["ws", "notes"], Node.dir),
          (["ws"], Node.dir)]⟩
        "/ws/notes/a.txt").result = OpResult.ok "hi" := by
  rcases claim_C3 cfgEx fsEx "/ws/notes/a.txt" "hi" (by decide)
    with ⟨fp, fs2, evs, hv, h1, h2, h2c, h3, h4⟩
  have hvc : validate_path cfgEx fsEx "/ws/notes/a.txt"
      = Except.ok ["ws", "notes", "a.txt"] := by decide
  rw [hv] at hvc
  injection hvc with hfp
  subst hfp
  have hc : write_file cfgEx fsEx "/ws/notes/a.txt" "hi"
      = ⟨OpResult.ok ("Successfully wrote " ++ toString ("hi" : String).length
          ++ " characters to " ++ "/ws/notes/a.txt"),
          ⟨[(["ws", "notes", "a.txt"], Node.file "hi"), (["ws", "notes"], Node.dir),
            (["ws"], Node.dir)]⟩,
          [Event.write ["ws", "notes"], Event.write ["ws", "notes", "a.txt"]],
          [["ws", "notes", "a.txt"]]⟩ := by decide
  rw [h1] at hc
  simp at hc
  obtain ⟨hfs, -⟩ := hc
  rw [← hfs]
  exact h2c (by decide)

/-- Totality of the code-point order on character lists. -/
theorem charListLe_total : ∀ a b : List Char, charListLe a b = true ∨ charListLe b a = true := by
  intro a
  induction a with
  | nil => intro b; exact Or.inl rfl
  | cons x xs ih =>
    intro b
    cases b with
    | nil => exact Or.inr rfl
    | cons y ys =>
      rcases lt_trichotomy x y with h | h | h
      · left
        unfold charListLe
        rw [if_pos h]
      · subst h
        rcases ih ys with h' | h'
        · left
          unfold charListLe
          rw [if_neg (lt_irrefl x), if_neg (lt_irrefl x)]
          exact h'
        · right
          unfold charListLe
          rw [if_neg (lt_irrefl x), if_neg (lt_irrefl x)]
          exact h'
      · right
        unfold charListLe
        rw [if_pos h]

/-- Transitivity of the code-point order on character lists. -/
theorem charListLe_trans : ∀ a b c : List Char,
    charListLe a b = true → charListLe b c = true → charListLe a c = true := by
  intro a
  induction a with
  | nil => intro b c _ _; rfl
  | cons x xs ih =>
    intro b c hab hbc
    cases b with
    | nil => exact absurd hab (by simp [charListLe])
    | cons y ys =>
      cases c with
      | nil => exact absurd hbc (by simp [charListLe])
      | cons z zs =>
        unfold charListLe at hab hbc ⊢
        by_cases hxy : x < y
        · rw [if_pos hxy] at hab
          by_cases hyz : y < z
          · rw [if_pos (lt_trans hxy hyz)]
          · by_cases hzy : z < y
            · rw [if_neg hyz, if_pos hzy] at hbc
              exact absurd hbc (by simp)
            · have hyx : y = z := le_antisymm (not_lt.mp hzy) (not_lt.mp hyz)
              subst hyx
              rw [if_pos hxy]
        · by_cases hyx : y < x
          · rw [if_neg hxy, if_pos hyx] at hab
            exact absurd hab (by simp)
          · have hxyeq : x = y := le_antisymm (not_lt.mp hyx) (not_lt.mp hxy)
            subst hxyeq
            rw [if_neg hxy, if_neg hyx] at hab
            by_cases hxz : x < z
            · rw [if_pos hxz]
            · by_cases hzx : z < x
              · rw [if_neg hxz, if_pos hzx] at hbc
                exact absurd hbc (by simp)
              · have hxzeq : x = z := le_antisymm (not_lt.mp hzx) (not_lt.mp hxz)
                subst hxzeq
                rw [if_neg hxz, if_neg hzx] at hbc
                rw [if_neg hxz, if_neg hzx]
                exact ih ys zs hab hbc

/-- Totality of the code-point order on strings. -/
theorem strLe_total (a b : String) : strLe a b = true ∨ strLe b a = true :=
  charListLe_total a.toList b.toList

/-- Transitivity of the code-point order on strings. -/
theorem strLe_trans {a b c : String} (hab : strLe a b = true) (hbc : strLe b c = true) :
    strLe a c = true :=
  charListLe_trans a.toList b.toList c.toList hab hbc

/-- `insertSorted` permutes the inserted `cons`. -/
theorem insertSorted_perm (s : String) (l : List String) :
    List.Perm (insertSorted s l) (s :: l) := by
  induction l with
  | nil => exact List.Perm.refl _
  | cons x xs ih =>
    unfold insertSorted
    by_cases h : strLe s x = true
    · rw [if_pos h]
    · rw [if_neg h]
      exact (List.Perm.cons x ih).trans (List.Perm.swap s x xs)

/-- Membership in `insertSorted`. -/
theorem mem_insertSorted {a s : String} {l : List String} :
    a ∈ insertSorted s l ↔ a = s ∨ a ∈ l := by
  rw [(insertSorted_perm s l).mem_iff]
  simp

/-- `insertSorted` preserves sortedness. -/
theorem insertSorted_pairwise (s : String) (l : List String)
    (h : l.Pairwise (fun a b => strLe a b = true)) :
    (insertSorted s l).Pairwise (fun a b => strLe a b = true) := by
  induction l with
  | nil => simp [insertSorted]
  | cons x xs ih =>
    rcases List.pairwise_cons.mp h with ⟨hx, hxs⟩
    unfold insertSorted
    by_cases hsx : strLe s x = true
    · rw [if_pos hsx]
      refine List.pairwise_cons.mpr ⟨?_, h⟩
      intro b hb
      rcases List.mem_cons.mp hb with hb | hb
      · subst hb; exact hsx
      · exact strLe_trans hsx (hx b hb)
    · rw [if_neg hsx]
      have hxs' : strLe x s = true := (strLe_total s x).resolve_left hsx
      refine List.pairwise_cons.mpr ⟨?_, ih hxs⟩
      intro b hb
      rcases mem_insertSorted.mp hb with hb | hb
      · subst hb; exact hxs'
      · exact hx b hb

/-- `sortStrings` is a permutation. -/
theorem sortStrings_perm (l : List String) : List.Perm (sortStrings l) l := by
  induction l with
  | nil => exact List.Perm.refl _
  | cons x xs ih =>
    exact (insertSorted_perm x (sortStrings xs)).trans (List.Perm.cons x ih)

/-- `sortStrings` sorts. -/
theorem sortStrings_pairwise (l : List String) :
    (sortStrings l).Pairwise (fun a b => strLe a b = true) := by
  induction l with
  | nil => simp [sortStrings]
  | cons x xs ih => exact insertSorted_pairwise x (sortStrings xs) ih

/-- Membership in `sortStrings`. -/
theorem mem_sortStrings {a : String} {l : List String} : a ∈ sortStrings l ↔ a ∈ l :=
  (sortStrings_perm l).mem_iff

/-- A lookup succeeds exactly when some stored entry has the key. -/
theorem lookupNodes_isSome_iff (l : List (List String × Node)) (k : List String) :
    (lookupNodes l k).isSome = true ↔ ∃ kv ∈ l, kv.1 = k := by
  induction l with
  | nil => simp [lookupNodes]
  | cons kv rest ih =>
    cases kv with
    | mk k1 n1 =>
      unfold lookupNodes
      by_cases hk : k1 = k
      · simp [hk]
      · rw [if_neg hk]
        simp only [List.mem_cons]
        constructor
        · intro h
          rcases (ih.mp h) with ⟨kv, hm, hkk⟩
          exact ⟨kv, Or.inr hm, hkk⟩
        · rintro ⟨kv, hm | hm, hkk⟩
          · subst hm; simp at hkk; exact absurd hkk hk
          · exact ih.mpr ⟨kv, hm, hkk⟩

/-- A key is the extension of `p` by `n` iff its shape says so. -/
theorem key_eq_concat {l p : List String} {n : String} :
    ((l.dropLast = p ∧ l.length = p.length + 1) ∧ l.getLast? = some n) ↔ l = p ++ [n] := by
  constructor
  · rintro ⟨⟨hdrop, hlen⟩, hlast⟩
    have hne : l ≠ [] := by
      intro hc
      subst hc
      simp at hlen
    rw [List.getLast?_eq_getLast l hne] at hlast
    have hlg : l.getLast hne = n := by
      injection hlast
    have hsplit := List.dropLast_append_getLast hne
    rw [hdrop, hlg] at hsplit
    exact hsplit.symm
  · rintro rfl
    refine ⟨⟨List.dropLast_concat, by simp⟩, List.getLast?_concat p⟩

/-- Raw child names are exactly the stored one-level extensions of `p`. -/
theorem mem_rawChildNames {fs : Fs} {p : List String} {n : String} :
    n ∈ rawChildNames fs p ↔ ∃ kv ∈ fs.nodes, kv.1 = p ++ [n] := by
  unfold rawChildNames
  rw [List.mem_filterMap]
  constructor
  · rintro ⟨kv, hkv, hf⟩
    by_cases hc : kv.1.dropLast = p ∧ kv.1.length = p.length + 1
    · rw [if_pos hc] at hf
      exact ⟨kv, hkv, key_eq_concat.mp ⟨hc, hf⟩⟩
    · rw [if_neg hc] at hf
      exact absurd hf (by simp)
  · rintro ⟨kv, hkv, hk⟩
    refine ⟨kv, hkv, ?_⟩
    rw [hk, if_pos ⟨List.dropLast_concat, by simp⟩]
    exact List.getLast?_concat p

/-- `childNames` membership is exactly child presence. -/
theorem mem_childNames {fs : Fs} {p : List String} {n : String} :
    n ∈ childNames fs p ↔ hasChild fs p n = true := by
  unfold childNames hasChild lookupFs
  rw [mem_sortStrings, List.mem_dedup, mem_rawChildNames]
  exact (lookupNodes_isSome_iff fs.nodes (p ++ [n])).symm

/-- `childNames` is sorted. -/
theorem childNames_pairwise (fs : Fs) (p : List String) :
    (childNames fs p).Pairwise (fun a b => strLe a b = true) :=
  sortStrings_pairwise _

/-- `childNames` has no duplicates. -/
theorem childNames_nodup (fs : Fs) (p : List String) : (childNames fs p).Nodup :=
  (sortStrings_perm _).nodup_iff.mpr (List.nodup_dedup _)

/-- When every named child stats successfully, `entryLines` renders one
line per name via `entryLineStr`, reading each child. -/
theorem entryLines_ok (fs : Fs) (dp : List String) :
    ∀ ns : List String,
      (∀ n ∈ ns, fsIsDir fs (dp ++ [n]) = true ∨ (statSize fs (dp ++ [n])).isSome = true) →
      ∃ evs, entryLines fs dp ns = Except.ok (ns.map (entryLineStr fs dp), evs) := by
  intro ns
  induction ns with
  | nil => exact fun _ => ⟨[], rfl⟩
  | cons n rest ih =>
    intro hstat
    rcases ih (fun m hm => hstat m (by simp [hm])) with ⟨evs, hrec⟩
    have hline : entryLine fs (dp ++ [n]) n = Except.ok (entryLineStr fs dp n) := by
      unfold entryLine entryLineStr
      by_cases hdir : fsIsDir fs (dp ++ [n]) = true
      · rw [if_pos hdir, if_pos hdir]
      · rw [if_neg hdir, if_neg hdir]
        rcases hstat n (by simp) with hd | hsz
        · exact absurd hd hdir
        · rcases hsz' : statSize fs (dp ++ [n]) with _ | sz
          · rw [hsz'] at hsz
            simp at hsz
          · rfl
    unfold entryLines
    rw [hline, hrec]
    exact ⟨Event.read (dp ++ [n]) :: evs, rfl⟩

/-- A target that is a directory exists. -/
theorem fsExists_of_isDir {fs : Fs} {q : List String}
    (hres : resolveSegs fs resolveFuel [] q = some q) (h : fsIsDir fs q = true) :
    fsExists fs q = true := by
  rw [fsIsDir_physical hres] at h
  rw [fsExists_physical hres]
  simp only [dirAt, decide_eq_true_eq] at h
  rw [h]
  rfl

/-- Claim C6 counterexample: on a validated, existing directory whose
only child is a broken symlink, `list_directory` does not enumerate the
children but fails with a host error (the per-entry `stat` raises), so
the claim as stated is false at this input. -/
theorem claim_C6_counterexample :
    validate_path cfgEx fsBroken "/ws" = Except.ok ["ws"] ∧
      fsIsDir fsBroken ["ws"] = true ∧
      childNames fsBroken ["ws"] = ["bad"] ∧
      (list_directory cfgEx fsBroken "/ws").result = OpResult.err Err.hostFailed := by
  refine ⟨by decide, by decide, by decide, by decide⟩

/-- Claim C6 (amended): for a validated path resolving to an existing
directory all of whose non-directory children stat successfully (no
broken symlink children), `list_directory` enumerates exactly the
distinct direct children, sorted by name, tagging directories `[DIR]`
and files `[FILE] name (N bytes)`; an empty directory yields the
distinguished `(empty directory)` sentinel, which differs from the
empty string. -/
theorem claim_C6 :
    ∀ (cfg : Cfg) (fs : Fs) (P : String) (dp : List String),
      validate_path cfg fs P = Except.ok dp →
      fsIsDir fs dp = true →
      (∀ n ∈ childNames fs dp,
        fsIsDir fs (dp ++ [n]) = true ∨ (statSize fs (dp ++ [n])).isSome = true) →
      (∀ n, n ∈ childNames fs dp ↔ hasChild fs dp n = true) ∧
      (childNames fs dp).Pairwise (fun a b => strLe a b = true) ∧
      (childNames fs dp).Nodup ∧
      ("(empty directory)" : String) ≠ "" ∧
      ∃ evs, list_directory cfg fs P
          = ⟨OpResult.ok (if childNames fs dp = [] then "(empty directory)"
              else joinSep "\n" ((childNames fs dp).map (entryLineStr fs dp))),
            fs, Event.read dp :: evs, [dp]⟩ := by
  intro cfg fs P dp hv hdir hstat
  obtain ⟨hplain, hsymp, hres⟩ := validate_path_ok_physical hv
  have hex := fsExists_of_isDir hres hdir
  rcases entryLines_ok fs dp (childNames fs dp) hstat with ⟨evs, hlines⟩
  refine ⟨fun n => mem_childNames, childNames_pairwise fs dp, childNames_nodup fs dp,
    by decide, evs, ?_⟩
  unfold list_directory
  rw [hv]
  simp [hex, hdir, hlines, List.map_eq_nil_iff]

/-- Witness for the amended C6 at a directory with one subdirectory. -/
theorem claim_C6_witness :
    ("projects" ∈ childNames fsLink ["ws"] ↔ hasChild fsLink ["ws"] "projects" = true) ∧
      ("(empty directory)" : String) ≠ "" :=
  ⟨(claim_C6 cfgEx fsLink "/ws" ["ws"] (by decide) (by decide) (by decide)).1 "projects",
    (claim_C6 cfgEx fsLink "/ws" ["ws"] (by decide) (by decide) (by decide)).2.2.2.1⟩

/-- Claim C9: `open_in_finder` validates a supplied path, defaults to
the first allowed root when the path is empty (configuration error when
no roots exist), requires the target to exist (NotFound otherwise), and
surfaces a non-zero exit of the host open command as a failure. -/
theorem claim_C9 :
    ∀ (cfg : Cfg) (fs : Fs) (ex : List String → Nat) (path : String),
      (path ≠ "" → ∀ e, validate_path cfg fs path = Except.error e →
        open_in_finder cfg fs ex path = ⟨OpResult.err e, fs, [], []⟩) ∧
      (path ≠ "" → ∀ tp, validate_path cfg fs path = Except.ok tp →
        open_in_finder cfg fs ex path = finderGo fs ex path tp [tp]) ∧
      (path = "" → cfg.allowedDirectories = [] →
        open_in_finder cfg fs ex path = ⟨OpResult.err Err.notConfigured, fs, [], []⟩) ∧
      (path = "" → ∀ r t, cfg.allowedDirectories = r :: t →
        open_in_finder cfg fs ex path = finderGo fs ex path r []) ∧
      (∀ tp v, fsExists fs tp = false →
        finderGo fs ex path tp v = ⟨OpResult.err (Err.notFound path), fs, [], v⟩) ∧
      (∀ tp v, fsExists fs tp = true → ex tp ≠ 0 →
        finderGo fs ex path tp v = ⟨OpResult.err Err.hostFailed, fs, [], v⟩) ∧
      (∀ tp v, fsExists fs tp = true → ex tp = 0 →
        finderGo fs ex path tp v
          = ⟨OpResult.ok ("Opened " ++ pathToString tp ++ " in Finder"), fs, [], v⟩) := by
  intro cfg fs ex path
  refine ⟨?_, ?_, ?_, ?_, ?_, ?_, ?_⟩
  · intro hne e hv
    exact open_in_finder_invalid ex hne hv
  · intro hne tp hv
    unfold open_in_finder
    rw [if_pos hne, hv]
  · intro hpe hroots
    subst hpe
    unfold open_in_finder
    rw [if_neg (by simp), hroots]
  · intro hpe r t hroots
    subst hpe
    unfold open_in_finder
    rw [if_neg (by simp), hroots]
  · intro tp v hex
    unfold finderGo
    simp [hex]
  · intro tp v hex hexit
    unfold finderGo
    simp [hex, hexit]
  · intro tp v hex hexit
    unfold finderGo
    simp [hex, hexit]

/-- Witness for C9: the three outcomes at concrete inputs. -/
theorem claim_C9_witness :
    open_in_finder ⟨[], none, [], []⟩ fsEx (fun _ => 0) ""
        = ⟨OpResult.err Err.notConfigured, fsEx, [], []⟩ ∧
      open_in_finder cfgEx fsEx (fun _ => 1) "/ws"
        = ⟨OpResult.err Err.hostFailed, fsEx, [], [["ws"]]⟩ ∧
      open_in_finder cfgEx fsEx (fun _ => 0) ""
        = ⟨OpResult.ok ("Opened " ++ pathToString ["ws"] ++ " in Finder"), fsEx, [], []⟩ := by
  refine ⟨(claim_C9 ⟨[], none, [], []⟩ fsEx (fun _ => 0) "").2.2.1 rfl rfl, ?_, ?_⟩
  · have h1 := (claim_C9 cfgEx fsEx (fun _ => 1) "/ws").2.1 (by decide) ["ws"] (by decide)
    have h2 := (claim_C9 cfgEx fsEx (fun _ => 1) "/ws").2.2.2.2.2.1 ["ws"] [["ws"]]
      (by decide) (by decide)
    exact h1.trans h2
  · have h1 := (claim_C9 cfgEx fsEx (fun _ => 0) "").2.2.2.1 rfl ["ws"] [] rfl
    have h2 := (claim_C9 cfgEx fsEx (fun _ => 0) "").2.2.2.2.2.2 ["ws"] [] (by decide) rfl
    exact h1.trans h2

/-- The extracted description is a stripped, truncated, non-heading,
non-empty line of the metadata content, or empty. -/
theorem firstDescLineAux_spec : ∀ lines : List (List Char),
    firstDescLineAux lines = [] ∨
      ∃ line ∈ lines, pyStrip line ≠ [] ∧ (pyStrip line).headD ' ' ≠ '#' ∧
        firstDescLineAux lines = (pyStrip line).take 100 := by
  intro lines
  induction lines with
  | nil => exact Or.inl rfl
  | cons l ls ih =>
    unfold firstDescLineAux
    by_cases hc : pyStrip l ≠ [] ∧ (pyStrip l).headD ' ' ≠ '#'
    · rw [if_pos hc]
      exact Or.inr ⟨l, by simp, hc.1, hc.2, rfl⟩
    · rw [if_neg hc]
      rcases ih with h | ⟨line, hm, h1, h2, h3⟩
      · exact Or.inl h
      · exact Or.inr ⟨line, by simp [hm], h1, h2, h3⟩

/-- The extracted description is at most 100 characters. -/
theorem firstDescLineAux_length : ∀ lines : List (List Char),
    (firstDescLineAux lines).length ≤ 100 := by
  intro lines
  induction lines with
  | nil => simp [firstDescLineAux]
  | cons l ls ih =>
    unfold firstDescLineAux
    by_cases hc : pyStrip l ≠ [] ∧ (pyStrip l).headD ' ' ≠ '#'
    · rw [if_pos hc]
      simp [List.length_take]
    · rw [if_neg hc]
      exact ih

/-- Reading a path whose content is known succeeds with that content. -/
theorem readText_of_contentAt {fs : Fs} {p : List String} {c : String}
    (h : contentAt fs p = some c) :
    ∃ q, readText fs p = Except.ok (univNewlinesStr c, q) := by
  unfold contentAt at h
  unfold readText
  rcases hr : resolveSegs fs resolveFuel [] p with _ | q
  · rw [hr] at h
    simp at h
  · rw [hr] at h
    rcases hn : nodeAt fs q with _ | node
    · simp only [hn] at h
      simp at h
    · cases node with
      | file c' =>
        simp only [hn] at h
        simp at h
        subst h
        exact ⟨q, by simp [hn]⟩
      | dir =>
        simp only [hn] at h
        simp at h
      | symlink t =>
        simp only [hn] at h
        simp at h

/-- When every project metadata file that exists is readable,
`projectLines` renders one bullet per non-dot directory entry via
`projectLineStr`. -/
theorem projectLines_ok (fs : Fs) (pd : List String) :
    ∀ ns : List String,
      (∀ n ∈ ns, fsIsDir fs (pd ++ [n]) = true → startsWithDot n = false →
        fsExists fs ((pd ++ [n]) ++ ["CLAUDE.md"]) = true →
        (contentAt fs ((pd ++ [n]) ++ ["CLAUDE.md"])).isSome = true) →
      ∃ evs, projectLines fs pd ns = Except.ok (ns.filterMap (projectLineStr fs pd), evs) := by
  intro ns
  induction ns with
  | nil => exact fun _ => ⟨[], rfl⟩
  | cons n rest ih =>
    intro hread
    rcases ih (fun m hm => hread m (by simp [hm])) with ⟨evs, hrec⟩
    unfold projectLines
    by_cases hcond : (fsIsDir fs (pd ++ [n]) && ¬ startsWithDot n) = true
    · rw [if_pos hcond]
      have hcond2 : fsIsDir fs (pd ++ [n]) = true ∧ ¬ startsWithDot n = true := by
        simpa using hcond
      have hdir : fsIsDir fs (pd ++ [n]) = true := hcond2.1
      have hdot : startsWithDot n = false := Bool.eq_false_iff.mpr hcond2.2
      by_cases hex : fsExists fs ((pd ++ [n]) ++ ["CLAUDE.md"]) = true
      · rcases Option.isSome_iff_exists.mp (hread n (by simp) hdir hdot hex) with ⟨c, hc⟩
        rcases readText_of_contentAt hc with ⟨q, hrt⟩
        have hline : projectLine fs (pd ++ [n]) n
            = Except.ok ("• " ++ n
                ++ (if firstDescLine (univNewlinesStr c) ≠ "" then
                      " - " ++ firstDescLine (univNewlinesStr c) else ""),
              [Event.read q]) := by
          unfold projectLine
          rw [if_pos hex, hrt]
        have hstr : projectLineStr fs pd n
            = some ("• " ++ n
                ++ (if firstDescLine (univNewlinesStr c) ≠ "" then
                      " - " ++ firstDescLine (univNewlinesStr c) else "")) := by
          unfold projectLineStr
          rw [if_pos hcond, if_pos hex, hc]
          rfl
        rw [hline, hrec]
        refine ⟨Event.read q :: evs, ?_⟩
        rw [List.filterMap_cons, hstr]
        rfl
      · have hline : projectLine fs (pd ++ [n]) n = Except.ok ("• " ++ n, []) := by
          unfold projectLine
          rw [if_neg hex]
        have hstr : projectLineStr fs pd n = some ("• " ++ n) := by
          unfold projectLineStr
          rw [if_pos hcond, if_neg hex]
        rw [hline, hrec]
        refine ⟨evs, ?_⟩
        rw [List.filterMap_cons, hstr]
        rfl
    · rw [if_neg hcond]
      have hstr : projectLineStr fs pd n = none := by
        unfold projectLineStr
        rw [if_neg hcond]
      refine ⟨evs, ?_⟩
      rw [List.filterMap_cons, hstr]
      exact hrec

/-- Claim C8: `list_projects` returns the explicit no-projects-directory
result (not an error) when the projects root is unset or absent;
otherwise it renders one bullet per direct, non-dot subdirectory of the
projects root in sorted order, surfacing as description the first
trimmed, non-empty, non-heading line of the metadata file truncated to
100 characters; a missing metadata file yields a bullet with no
description and no error. -/
theorem claim_C8 :
    ∀ (cfg : Cfg) (fs : Fs),
      (cfg.projectsDir = none →
        list_projects cfg fs = ⟨OpResult.ok "No projects directory found.", fs, [], []⟩) ∧
      (∀ pd, cfg.projectsDir = some pd → fsExists fs pd = false →
        list_projects cfg fs = ⟨OpResult.ok "No projects directory found.", fs, [], []⟩) ∧
      (∀ pd, cfg.projectsDir = some pd → fsExists fs pd = true →
        (∀ n ∈ childNames fs pd, fsIsDir fs (pd ++ [n]) = true → startsWithDot n = false →
          fsExists fs ((pd ++ [n]) ++ ["CLAUDE.md"]) = true →
          (contentAt fs ((pd ++ [n]) ++ ["CLAUDE.md"])).isSome = true) →
        ∃ evs, list_projects cfg fs
            = ⟨OpResult.ok
                (if (childNames fs pd).filterMap (projectLineStr fs pd) = [] then
                  "No projects yet. Use create_project to create one!"
                else "Projects:\n"
                  ++ joinSep "\n" ((childNames fs pd).filterMap (projectLineStr fs pd))),
              fs, Event.read pd :: evs, []⟩) ∧
      (∀ pd n, fsIsDir fs (pd ++ [n]) = true → startsWithDot n = false →
        fsExists fs ((pd ++ [n]) ++ ["CLAUDE.md"]) = false →
        projectLineStr fs pd n = some ("• " ++ n)) ∧
      (∀ pd n, startsWithDot n = true → projectLineStr fs pd n = none) ∧
      (∀ pd, (childNames fs pd).Pairwise (fun a b => strLe a b = true) ∧
        ∀ n, n ∈ childNames fs pd ↔ hasChild fs pd n = true) ∧
      (∀ content : String, (firstDescLine content).length ≤ 100 ∧
        (firstDescLine content = "" ∨
          ∃ line ∈ splitChar '\n' content.toList,
            pyStrip line ≠ [] ∧ (pyStrip line).headD ' ' ≠ '#' ∧
            firstDescLine content = ((pyStrip line).take 100).asString)) := by
  intro cfg fs
  refine ⟨?_, ?_, ?_, ?_, ?_, ?_, ?_⟩
  · intro h
    unfold list_projects
    rw [h]
  · intro pd hpd habs
    unfold list_projects
    rw [hpd]
    simp [habs]
  · intro pd hpd hex hread
    rcases projectLines_ok fs pd (childNames fs pd) hread with ⟨evs, hpl⟩
    refine ⟨evs, ?_⟩
    unfold list_projects
    rw [hpd]
    simp [hex, hpl]
    by_cases hnil : ∀ a ∈ childNames fs pd, projectLineStr fs pd a = none
    · rw [if_pos hnil, if_pos hnil]
    · rw [if_neg hnil, if_neg hnil]
  · intro pd n hdir hdot hexf
    unfold projectLineStr
    rw [if_pos (by simp [hdir, hdot]),
      if_neg (fun hc => by rw [hc] at hexf; exact absurd hexf (by decide))]
  · intro pd n hdot
    unfold projectLineStr
    rw [if_neg (by simp [hdot])]
  · intro pd
    exact ⟨childNames_pairwise fs pd, fun n => mem_childNames⟩
  · intro content
    constructor
    · exact firstDescLineAux_length (splitChar '\n' content.toList)
    · rcases firstDescLineAux_spec (splitChar '\n' content.toList) with h | ⟨line, hm, h1, h2, h3⟩
      · left
        unfold firstDescLine
        rw [h]
        rfl
      · right
        exact ⟨line, hm, h1, h2, congrArg List.asString h3⟩

/-- Witness for C8: the no-directory result, the 100-character bound,
and the `Hello world` description surfaced from a concrete project. -/
theorem claim_C8_witness :
    list_projects (⟨[["ws"]], none, ["home", "u"], ["cwd"]⟩ : Cfg) fsEx
        = ⟨OpResult.ok "No projects directory found.", fsEx, [], []⟩ ∧
      (firstDescLine "# proj\n\nHello world\n").length ≤ 100 ∧
      (list_projects cfgEx fsHello).result = OpResult.ok "Projects:\n• proj - Hello world" := by
  refine ⟨(claim_C8 (⟨[["ws"]], none, ["home", "u"], ["cwd"]⟩ : Cfg) fsEx).1 rfl,
    ((claim_C8 cfgEx fsHello).2.2.2.2.2.2 "# proj\n\nHello world\n").1, ?_⟩
  rcases (claim_C8 cfgEx fsHello).2.2.1 ["ws", "projects"] rfl (by decide) (by decide)
    with ⟨evs, h⟩
  rw [congrArg OpOut.result h]
  show OpResult.ok
      (if (childNames fsHello ["ws", "projects"]).filterMap
            (projectLineStr fsHello ["ws", "projects"]) = [] then
        "No projects yet. Use create_project to create one!"
      else "Projects:
" ++ joinSep "
"
        ((childNames fsHello ["ws", "projects"]).filterMap
          (projectLineStr fsHello ["ws", "projects"])))
      = OpResult.ok "Projects:
• proj - Hello world"
  decide

/-- Lowercasing maps only `'.'` to `'.'`. -/
theorem toLowerChar_eq_dot {c : Char} (h : toLowerChar c = '.') : c = '.' := by
  unfold toLowerChar at h
  split at h
  · next hc =>
    exfalso
    have h1 : (65 : Nat) ≤ c.toNat := by
      have := hc.1
      simp [Char.le_def] at this
      exact this
    have h2 : c.toNat ≤ 90 := by
      have := hc.2
      simp [Char.le_def] at this
      exact this
    revert h
    have hgen : ∀ n, 65 ≤ n → n ≤ 90 → Char.ofNat (n + 32) ≠ '.' := by
      intro n hn1 hn2
      interval_cases n <;> decide
    exact hgen c.toNat h1 h2
  · exact h

/-- Stripping only removes characters. -/
theorem pyStrip_subset {l : List Char} {x : Char} (h : x ∈ pyStrip l) : x ∈ l := by
  unfold pyStrip at h
  rw [List.mem_reverse] at h
  have h2 := (List.dropWhile_sublist isPyWs).subset h
  rw [List.mem_reverse] at h2
  exact (List.dropWhile_sublist isPyWs).subset h2

/-- Sanitized names contain no dot. -/
theorem sanitizeName_no_dot (name : String) : ('.' : Char) ∉ (sanitizeName name).toList := by
  unfold sanitizeName
  intro hmem
  rcases List.mem_map.mp hmem with ⟨c1, hc1, hlow⟩
  have hc1dot : c1 = '.' := toLowerChar_eq_dot hlow
  subst hc1dot
  rcases List.mem_map.mp hc1 with ⟨c2, hc2, hhyph⟩
  by_cases hsp : c2 = ' '
  · rw [if_pos hsp] at hhyph
    exact absurd hhyph (by decide)
  · rw [if_neg hsp] at hhyph
    subst hhyph
    have hmem2 := pyStrip_subset hc2
    have := (List.mem_filter.mp hmem2).2
    simp [pyIsAlnum, Char.isAlpha, Char.isLower, Char.isUpper, Char.isDigit] at this

/-- A nonempty sanitized name is a plain path segment. -/
theorem sanitizeName_plain {name : String} (h : sanitizeName name ≠ "") :
    plainSeg (sanitizeName name) = true := by
  simp only [plainSeg, ne_eq, decide_eq_true_eq]
  refine ⟨h, ?_, ?_⟩
  · intro hc
    have hd : ('.' : Char) ∈ (sanitizeName name).toList := by
      rw [hc]
      decide
    exact sanitizeName_no_dot name hd
  · intro hc
    have hd : ('.' : Char) ∈ (sanitizeName name).toList := by
      rw [hc]
      decide
    exact sanitizeName_no_dot name hd

/-- Distinct last segments give distinct extensions. -/
theorem concat_ne_concat {pp : List String} {a b : String} (h : a ≠ b) :
    pp ++ [a] ≠ pp ++ [b] := by
  intro hc
  have := List.append_cancel_left hc
  injection this with h1
  exact h h1

/-- `nodeAt` at a nonempty path is the stored lookup. -/
theorem nodeAt_ne_nil (fs : Fs) {p : List String} (hp : p ≠ []) :
    nodeAt fs p = lookupFs fs p := by
  unfold nodeAt
  rw [if_neg hp]

/-- Nothing is stored at or under a path none of whose extensions occur
among the keys. -/
theorem nodeAt_none_of_under {fs : Fs} {pp : List String}
    (hunder : ∀ kv ∈ fs.nodes, ¬ pp <+: kv.1) (hne : pp ≠ []) :
    nodeAt fs pp = none ∧ ∀ ext : List String, nodeAt fs (pp ++ ext) = none := by
  have hkey : ∀ k : List String, pp <+: k → lookupFs fs k = none := by
    intro k hk
    rcases hl : lookupFs fs k with _ | node
    · rfl
    · exfalso
      have : (lookupNodes fs.nodes k).isSome = true := by
        unfold lookupFs at hl
        rw [hl]
        rfl
      rcases (lookupNodes_isSome_iff fs.nodes k).mp this with ⟨kv, hkv, hkk⟩
      exact hunder kv hkv (hkk ▸ hk)
  constructor
  · rw [nodeAt_ne_nil fs hne]
    exact hkey pp (List.prefix_refl pp)
  · intro ext
    rw [nodeAt_ne_nil fs (by simp [hne])]
    exact hkey (pp ++ ext) ⟨ext, rfl⟩

/-- Node map of the four-entry project structure built over `fs1`. -/
theorem chain_nodeAt (fs1 : Fs) (pp : List String) (content : String) (k : List String) :
    nodeAt (setNode (setNode (setNode (setNode fs1 (pp ++ ["downloads"]) Node.dir)
        (pp ++ ["scripts"]) Node.dir) (pp ++ ["data"]) Node.dir)
        (pp ++ ["CLAUDE.md"]) (Node.file content)) k
    = if k = pp ++ ["CLAUDE.md"] then some (Node.file content)
      else if k = pp ++ ["data"] then some Node.dir
      else if k = pp ++ ["scripts"] then some Node.dir
      else if k = pp ++ ["downloads"] then some Node.dir
      else nodeAt fs1 k := by
  rw [nodeAt_setNode (by simp) _ _ k, nodeAt_setNode (by simp) _ _ k,
    nodeAt_setNode (by simp) _ _ k, nodeAt_setNode (by simp) _ _ k]

/-- Stored-key map of the four-entry project structure over `fs1`. -/
theorem chain_lookupFs (fs1 : Fs) (pp : List String) (content : String) (k : List String) :
    lookupFs (setNode (setNode (setNode (setNode fs1 (pp ++ ["downloads"]) Node.dir)
        (pp ++ ["scripts"]) Node.dir) (pp ++ ["data"]) Node.dir)
        (pp ++ ["CLAUDE.md"]) (Node.file content)) k
    = if k = pp ++ ["CLAUDE.md"] then some (Node.file content)
      else if k = pp ++ ["data"] then some Node.dir
      else if k = pp ++ ["scripts"] then some Node.dir
      else if k = pp ++ ["downloads"] then some Node.dir
      else lookupFs fs1 k := by
  rw [lookupFs_setNode, lookupFs_setNode, lookupFs_setNode, lookupFs_setNode]

/-- The four-entry project structure preserves every symlink of `fs1`
when the four target locations are not symlinks in `fs1`. -/
theorem chain_symlinkAt (fs1 : Fs) (pp : List String) (content : String)
    (hch : ∀ c : String, symlinkAt fs1 (pp ++ [c]) = none) (k : List String) :
    symlinkAt (setNode (setNode (setNode (setNode fs1 (pp ++ ["downloads"]) Node.dir)
        (pp ++ ["scripts"]) Node.dir) (pp ++ ["data"]) Node.dir)
        (pp ++ ["CLAUDE.md"]) (Node.file content)) k
    = symlinkAt fs1 k := by
  have s2 := symlinkAt_setNode_none (p := pp ++ ["downloads"]) (by simp) fs1 Node.dir
    (fun t => Node.noConfusion) (hch "downloads")
  have s3 := symlinkAt_setNode_none (p := pp ++ ["scripts"]) (by simp) _ Node.dir
    (fun t => Node.noConfusion) (by rw [s2]; exact hch "scripts")
  have s4 := symlinkAt_setNode_none (p := pp ++ ["data"]) (by simp) _ Node.dir
    (fun t => Node.noConfusion) (by rw [s3, s2]; exact hch "data")
  have s5 := symlinkAt_setNode_none (p := pp ++ ["CLAUDE.md"]) (by simp) _
    (Node.file content) (fun t => Node.noConfusion) (by rw [s4, s3, s2]; exact hch "CLAUDE.md")
  rw [s5, s4, s3, s2]

/-- Claim C7: `create_project` sanitizes the name (keeping alphanumerics,
hyphen, underscore, space; trimming; spaces to hyphens; lowercasing), so
that `"My Cool Project!"` yields the slug `my-cool-project`; an empty
slug is an InvalidInput error; a successful call creates the project
directory with exactly the children `downloads/`, `scripts/`, `data/`
and the `CLAUDE.md` metadata file; and a second call whose input
sanitizes to the same slug fails with AlreadyExists, changing nothing. -/
theorem claim_C7 :
    sanitizeName "My Cool Project!" = "my-cool-project" ∧
    (∀ (cfg : Cfg) (fs : Fs) (name d : String) (pd : List String),
      cfg.projectsDir = some pd → sanitizeName name = "" →
      create_project cfg fs name d = ⟨OpResult.err Err.invalidInput, fs, [], []⟩) ∧
    (∀ (cfg : Cfg) (fs : Fs) (name d : String) (pd : List String),
      cfg.projectsDir = some pd →
      (∀ s' ∈ pd, plainSeg s' = true) →
      (∀ pre, pre ≠ [] → pre <+: pd → symlinkAt fs pre = none) →
      (∀ pre, pre ≠ [] → pre <+: pd →
        nodeAt fs pre = some Node.dir ∨ nodeAt fs pre = none) →
      sanitizeName name ≠ "" →
      pd.length < resolveFuel →
      (∀ kv ∈ fs.nodes, ¬ (pd ++ [sanitizeName name]) <+: kv.1) →
      ∃ fs5 evs,
        create_project cfg fs name d
          = ⟨OpResult.ok ("Created project '" ++ sanitizeName name ++ "' at "
              ++ pathToString (pd ++ [sanitizeName name])), fs5, evs, []⟩ ∧
        nodeAt fs5 (pd ++ [sanitizeName name]) = some Node.dir ∧
        nodeAt fs5 ((pd ++ [sanitizeName name]) ++ ["downloads"]) = some Node.dir ∧
        nodeAt fs5 ((pd ++ [sanitizeName name]) ++ ["scripts"]) = some Node.dir ∧
        nodeAt fs5 ((pd ++ [sanitizeName name]) ++ ["data"]) = some Node.dir ∧
        nodeAt fs5 ((pd ++ [sanitizeName name]) ++ ["CLAUDE.md"])
          = some (Node.file (claudeMdContent name d)) ∧
        (∀ c, hasChild fs5 (pd ++ [sanitizeName name]) c = true ↔
          c ∈ (["downloads", "scripts", "data", "CLAUDE.md"] : List String)) ∧
        (∀ name2, sanitizeName name2 = sanitizeName name →
          create_project cfg fs5 name2 d
            = ⟨OpResult.err (Err.alreadyExists (sanitizeName name)), fs5, [], []⟩)) := by
  refine ⟨by decide, ?_, ?_⟩
  · intro cfg fs name d pd hpd hempty
    unfold create_project
    rw [hpd]
    simp [hempty]
  · intro cfg fs name d pd hpd hplainpd hsympd hcleanpd hslug hlen hunder
    obtain ⟨pp, hpp⟩ : ∃ pp, pd ++ [sanitizeName name] = pp := ⟨_, rfl⟩
    rw [hpp] at hunder ⊢
    obtain ⟨hfresh, hfreshext⟩ := nodeAt_none_of_under hunder (by rw [← hpp]; simp)
    have hppne : pp ≠ [] := by rw [← hpp]; simp
    have hplainpp : ∀ s' ∈ pp, plainSeg s' = true := by
      rw [← hpp]
      intro s' hs'
      rcases List.mem_append.mp hs' with hm | hm
      · exact hplainpd s' hm
      · simp at hm
        subst hm
        exact sanitizeName_plain hslug
    have hsympp : ∀ pre, pre ≠ [] → pre <+: pp → symlinkAt fs pre = none := by
      rw [← hpp]
      intro pre hne hp
      rcases List.prefix_concat_iff.mp hp with he | hp'
      · rw [he, ← hpp] at *
        rw [he]
        rw [symlinkAt_eq, hfresh]
      · exact hsympd pre hne hp'
    have hlenpp : pp.length ≤ resolveFuel := by
      rw [← hpp]
      simp
      omega
    have hres : resolveSegs fs resolveFuel [] pp = some pp := by
      have := resolveSegs_rerun pp resolveFuel [] hplainpp
        (by intro pre hne hp; exact hsympp pre hne (by simpa using hp)) hlenpp
      simpa using this
    have hexf : fsExists fs pp = false := by
      rw [fsExists_physical hres, hfresh]
      rfl
    have hcleanpp : ∀ pre, pre ≠ [] → pre <+: pp →
        nodeAt fs ([] ++ pre) = some Node.dir ∨ nodeAt fs ([] ++ pre) = none := by
      rw [← hpp]
      intro pre hne hp
      rcases List.prefix_concat_iff.mp hp with he | hp'
      · right
        rw [he, hpp]
        simpa using hfresh
      · simpa using hcleanpd pre hne hp'
    rcases mkdirParentsAux_ok pp fs [] hcleanpp with ⟨fs1, evs1, hmk⟩
    obtain ⟨hsymA, hdirsA, hpresA⟩ := mkdirParentsAux_spec pp fs [] fs1 evs1 hmk
    have hmkP : mkdirParents fs pp = Except.ok (fs1, evs1) := by
      unfold mkdirParents
      exact hmk
    have hppdir1 : nodeAt fs1 pp = some Node.dir := by
      have := hdirsA pp hppne (List.prefix_refl _)
      simpa using this
    have hchild1 : ∀ c : String, nodeAt fs1 (pp ++ [c]) = none := by
      intro c
      have havoid : ∀ pre, pre ≠ [] → pre <+: pp → pp ++ [c] ≠ [] ++ pre := by
        intro pre hne hp hc
        have h1 := hp.length_le
        have h2 := congrArg List.length hc
        simp [List.length_append] at h2
        omega
      rw [hpresA _ havoid]
      simpa using hfreshext [c]
    have hppne2 : ∀ c : String, ¬ (pp = pp ++ [c]) :=
      fun c => ne_append_right _ _ (by simp)
    have hdirAtOf : ∀ fsx : Fs, nodeAt fsx pp = some Node.dir →
        dirAt fsx pp = true := by
      intro fsx h
      simp [dirAt, h]
    have hd2 : mkdirSimple fs1 (pp ++ ["downloads"])
        = Except.ok (setNode fs1 (pp ++ ["downloads"]) Node.dir,
            Event.write (pp ++ ["downloads"])) :=
      mkdirSimple_ok (hchild1 "downloads")
        (by rw [List.dropLast_concat]; exact hdirAtOf fs1 hppdir1)
    have hd3 : mkdirSimple (setNode fs1 (pp ++ ["downloads"]) Node.dir) (pp ++ ["scripts"])
        = Except.ok (setNode (setNode fs1 (pp ++ ["downloads"]) Node.dir)
              (pp ++ ["scripts"]) Node.dir,
            Event.write (pp ++ ["scripts"])) :=
      mkdirSimple_ok
        (by rw [nodeAt_setNode (by simp), if_neg (concat_ne_concat (by decide)), hchild1])
        (by rw [List.dropLast_concat]
            refine hdirAtOf _ ?_
            rw [nodeAt_setNode (by simp), if_neg (hppne2 "downloads")]
            exact hppdir1)
    have hd4 : mkdirSimple (setNode (setNode fs1 (pp ++ ["downloads"]) Node.dir)
            (pp ++ ["scripts"]) Node.dir) (pp ++ ["data"])
        = Except.ok (setNode (setNode (setNode fs1 (pp ++ ["downloads"]) Node.dir)
                (pp ++ ["scripts"]) Node.dir) (pp ++ ["data"]) Node.dir,
            Event.write (pp ++ ["data"])) :=
      mkdirSimple_ok
        (by rw [nodeAt_setNode (by simp), if_neg (concat_ne_concat (by decide)),
              nodeAt_setNode (by simp), if_neg (concat_ne_concat (by decide)), hchild1])
        (by rw [List.dropLast_concat]
            refine hdirAtOf _ ?_
            rw [nodeAt_setNode (by simp), if_neg (hppne2 "scripts"),
              nodeAt_setNode (by simp), if_neg (hppne2 "downloads")]
            exact hppdir1)
    have hw5 : writeText (setNode (setNode (setNode fs1 (pp ++ ["downloads"]) Node.dir)
            (pp ++ ["scripts"]) Node.dir) (pp ++ ["data"]) Node.dir)
          (pp ++ ["CLAUDE.md"]) (claudeMdContent name d)
        = Except.ok (setNode (setNode (setNode (setNode fs1 (pp ++ ["downloads"]) Node.dir)
                (pp ++ ["scripts"]) Node.dir) (pp ++ ["data"]) Node.dir)
              (pp ++ ["CLAUDE.md"]) (Node.file (claudeMdContent name d)),
            Event.write (pp ++ ["CLAUDE.md"])) :=
      writeText_ok_of (claudeMdContent name d)
        (Or.inl (by
          rw [nodeAt_setNode (by simp), if_neg (concat_ne_concat (by decide)),
            nodeAt_setNode (by simp), if_neg (concat_ne_concat (by decide)),
            nodeAt_setNode (by simp), if_neg (concat_ne_concat (by decide)), hchild1]))
        (by rw [List.dropLast_concat]
            refine hdirAtOf _ ?_
            rw [nodeAt_setNode (by simp), if_neg (hppne2 "data"),
              nodeAt_setNode (by simp), if_neg (hppne2 "scripts"),
              nodeAt_setNode (by simp), if_neg (hppne2 "downloads")]
            exact hppdir1)
    have hrun : create_project cfg fs name d
        = ⟨OpResult.ok ("Created project '" ++ sanitizeName name ++ "' at "
            ++ pathToString pp),
          setNode (setNode (setNode (setNode fs1 (pp ++ ["downloads"]) Node.dir)
              (pp ++ ["scripts"]) Node.dir) (pp ++ ["data"]) Node.dir)
            (pp ++ ["CLAUDE.md"]) (Node.file (claudeMdContent name d)),
          evs1 ++ [Event.write (pp ++ ["downloads"]), Event.write (pp ++ ["scripts"]),
            Event.write (pp ++ ["data"]), Event.write (pp ++ ["CLAUDE.md"])], []⟩ := by
      unfold create_project
      rw [hpd]
      show (if sanitizeName name = "" then _ else _) = _
      rw [if_neg hslug]
      rw [hpp]
      rw [if_neg (by rw [hexf]; exact Bool.false_ne_true)]
      rw [hmkP]
      simp only [hd2, hd3, hd4, hw5]
    have hch_sym : ∀ c : String, symlinkAt fs1 (pp ++ [c]) = none := by
      intro c
      rw [symlinkAt_eq, hchild1 c]
    have hnode5 := chain_nodeAt fs1 pp (claudeMdContent name d)
    have hnode5pp : nodeAt (setNode (setNode (setNode (setNode fs1
          (pp ++ ["downloads"]) Node.dir) (pp ++ ["scripts"]) Node.dir)
          (pp ++ ["data"]) Node.dir) (pp ++ ["CLAUDE.md"])
          (Node.file (claudeMdContent name d))) pp = some Node.dir := by
      rw [hnode5, if_neg (hppne2 "CLAUDE.md"), if_neg (hppne2 "data"),
        if_neg (hppne2 "scripts"), if_neg (hppne2 "downloads")]
      exact hppdir1
    refine ⟨_, _, hrun, hnode5pp, ?_, ?_, ?_, ?_, ?_, ?_⟩
    · rw [hnode5, if_neg (concat_ne_concat (by decide)),
        if_neg (concat_ne_concat (by decide)), if_neg (concat_ne_concat (by decide)),
        if_pos rfl]
    · rw [hnode5, if_neg (concat_ne_concat (by decide)),
        if_neg (concat_ne_concat (by decide)), if_pos rfl]
    · rw [hnode5, if_neg (concat_ne_concat (by decide)), if_pos rfl]
    · rw [hnode5, if_pos rfl]
    · intro c
      have hiff : ∀ a : String, (pp ++ [c] = pp ++ [a]) ↔ c = a := by
        intro a
        constructor
        · intro hc
          have := List.append_cancel_left hc
          injection this
        · intro hc
          rw [hc]
      unfold hasChild
      rw [chain_lookupFs]
      by_cases h1 : c = "CLAUDE.md"
      · rw [if_pos ((hiff "CLAUDE.md").mpr h1)]
        simp [h1]
      · rw [if_neg (fun hc => h1 ((hiff "CLAUDE.md").mp hc))]
        by_cases h2 : c = "data"
        · rw [if_pos ((hiff "data").mpr h2)]
          simp [h2]
        · rw [if_neg (fun hc => h2 ((hiff "data").mp hc))]
          by_cases h3 : c = "scripts"
          · rw [if_pos ((hiff "scripts").mpr h3)]
            simp [h3]
          · rw [if_neg (fun hc => h3 ((hiff "scripts").mp hc))]
            by_cases h4 : c = "downloads"
            · rw [if_pos ((hiff "downloads").mpr h4)]
              simp [h4]
            · rw [if_neg (fun hc => h4 ((hiff "downloads").mp hc)),
                ← nodeAt_ne_nil fs1 (by simp [hppne]), hchild1]
              simp [h1, h2, h3, h4]
    · intro name2 hname2
      have hsym5 : ∀ k, symlinkAt (setNode (setNode (setNode (setNode fs1
            (pp ++ ["downloads"]) Node.dir) (pp ++ ["scripts"]) Node.dir)
            (pp ++ ["data"]) Node.dir) (pp ++ ["CLAUDE.md"])
            (Node.file (claudeMdContent name d))) k = symlinkAt fs k :=
        fun k => (chain_symlinkAt fs1 pp (claudeMdContent name d) hch_sym k).trans (hsymA k)
      have hres5 : resolveSegs (setNode (setNode (setNode (setNode fs1
            (pp ++ ["downloads"]) Node.dir) (pp ++ ["scripts"]) Node.dir)
            (pp ++ ["data"]) Node.dir) (pp ++ ["CLAUDE.md"])
            (Node.file (claudeMdContent name d))) resolveFuel [] pp = some pp := by
        rw [resolveSegs_congr hsym5]
        exact hres
      have hex5 : fsExists (setNode (setNode (setNode (setNode fs1
            (pp ++ ["downloads"]) Node.dir) (pp ++ ["scripts"]) Node.dir)
            (pp ++ ["data"]) Node.dir) (pp ++ ["CLAUDE.md"])
            (Node.file (claudeMdContent name d))) pp = true := by
        rw [fsExists_physical hres5, hnode5pp]
        rfl
      unfold create_project
      rw [hpd, hname2]
      show (if sanitizeName name = "" then _ else _) = _
      rw [if_neg hslug]
      rw [hpp]
      rw [if_pos (by rw [hex5])]
theorem claim_C7_witness :
    (create_project cfgEx fsEx "My Cool Project!" "Analyze data").result
      = OpResult.ok "Created project 'my-cool-project' at /ws/projects/my-cool-project" ∧
    create_project cfgEx fsEx "!!!" "Analyze data"
      = ⟨OpResult.err Err.invalidInput, fsEx, [], []⟩ := by
  obtain ⟨h1, h2, h3⟩ := claim_C7
  have hpre : ∀ pre : List String, pre <+: (["ws", "projects"] : List String) →
      pre = [] ∨ pre = ["ws"] ∨ pre = ["ws", "projects"] := by
    intro pre hp
    have hlen := hp.length_le
    rcases pre with _ | ⟨a, _ | ⟨b, _ | ⟨c, r⟩⟩⟩
    · exact Or.inl rfl
    · rcases hp with ⟨t, ht⟩
      simp at ht
      exact Or.inr (Or.inl (by simp [ht.1]))
    · rcases hp with ⟨t, ht⟩
      simp at ht
      exact Or.inr (Or.inr (by simp [ht.1, ht.2.1]))
    · simp at hlen
  constructor
  · obtain ⟨fs5, evs, hrun, -⟩ :=
      h3 cfgEx fsEx "My Cool Project!" "Analyze data" ["ws", "projects"] rfl
        (by decide)
        (by intro pre hne hp
            rcases hpre pre hp with h | h | h
            · exact absurd h hne
            · rw [h]; decide
            · rw [h]; decide)
        (by intro pre hne hp
            rcases hpre pre hp with h | h | h
            · exact absurd h hne
            · rw [h]; exact Or.inl (by decide)
            · rw [h]; exact Or.inr (by decide))
        (by decide) (by decide) (by decide)
    rw [hrun, h1]
    show OpResult.ok ("Created project '" ++ "my-cool-project" ++ "' at "
        ++ pathToString (["ws", "projects"] ++ ["my-cool-project"]))
      = OpResult.ok "Created project 'my-cool-project' at /ws/projects/my-cool-project"
    decide
  · exact h2 cfgEx fsEx "!!!" "Analyze data" ["ws", "projects"] rfl (by decide)
